import Mathlib

/-!
# MoText: row rendering, coordinate mapping, viewport, key decoding, dispatch and drawing

A shallow embedding of `src/motext.c`.

Conventions of the embedding.

* A C `char` buffer together with its length field is a `List Nat` of byte
  values: `(chars, size)` and `(render, rsize)` of `erow`, `(row, numrows)` of
  `editorConfig`.  `size`, `rsize` and `numrows` are the lengths of those lists.
* C `int` values are `Int`.  All quantities stay far inside the `int` range for
  any buffer that fits in memory, so no wrap-around is modelled.
* A loop that writes `buf[idx ++] = v` into a freshly allocated buffer is an
  append to a list; `idx` is the length of the list written so far.
-/

namespace MoText

/-! ## defines -/

/-- `#define MoTEXT_TAB_STOP 8` -/
def MoTEXT_TAB_STOP : Nat := 8

/-- The byte `'\t'`. -/
def TAB : Nat := 9

/-- The byte `' '`. -/
def SPACE : Nat := 32

/-! ## data -/

/-- `typedef struct erow`: `chars` with its length `size`, `render` with its
length `rsize`. -/
structure erow where
  chars : List Nat
  render : List Nat
deriving DecidableEq

/-- Field `size` of `erow`. -/
def erow.size (row : erow) : Int := row.chars.length

/-- Field `rsize` of `erow`. -/
def erow.rsize (row : erow) : Int := row.render.length

/-! ## row operations -/

/-- One pass of the body of the `for` loop of `editorRowCxToRx`:
`if (c == '\t') rx += (MoTEXT_TAB_STOP - 1) - (rx % MoTEXT_TAB_STOP); rx ++;`.
`rx` is never negative there, so C's `%` is the `%` of `Int`. -/
def rxStep (rx : Int) (c : Nat) : Int :=
  (if c = TAB then rx + (((MoTEXT_TAB_STOP : Int) - 1) - rx % (MoTEXT_TAB_STOP : Int)) else rx) + 1

/-- `int editorRowCxToRx(erow *row, int cx)`: the loop `for (j = 0; j < cx; j ++)`
reads `row->chars[j]`; index `size` holds the terminating NUL, and a read past
it, undefined in C, yields 0 in the model. -/
def editorRowCxToRx (row : erow) (cx : Int) : Int :=
  (List.range cx.toNat).foldl (fun rx j => rxStep rx (row.chars.getD j 0)) 0

/-- The inner loop of `editorUpdateRow`:
`while (idx % MoTEXT_TAB_STOP != 0) row->render[idx ++] = ' ';`
where `idx` is the number of bytes written to `render` so far. -/
def padLoop (render : List Nat) : List Nat :=
  if render.length % MoTEXT_TAB_STOP ≠ 0 then padLoop (render ++ [SPACE]) else render
termination_by (MoTEXT_TAB_STOP - render.length % MoTEXT_TAB_STOP) % MoTEXT_TAB_STOP
decreasing_by
  simp only [MoTEXT_TAB_STOP, List.length_append, List.length_singleton] at *
  omega

/-- The first loop of `editorUpdateRow`: counts the tab bytes of `chars`. -/
def countTabs : List Nat → Nat
  | [] => 0
  | c :: cs => (if c = TAB then 1 else 0) + countTabs cs

/-- The second `for` loop of `editorUpdateRow`, over the bytes of `chars` that
are still to be visited, with the bytes written to `render` so far. -/
def renderLoop : List Nat → List Nat → List Nat
  | [], render => render
  | c :: cs, render =>
    if c = TAB then renderLoop cs (padLoop (render ++ [SPACE]))
    else renderLoop cs (render ++ [c])

/-- The size passed to `malloc` for `render` in `editorUpdateRow`:
`row->size + tabs * (MoTEXT_TAB_STOP - 1) + 1`. -/
def renderAlloc (row : erow) : Nat :=
  row.chars.length + countTabs row.chars * (MoTEXT_TAB_STOP - 1) + 1

/-- `void editorUpdateRow(erow *row)`: recomputes `render` and `rsize` from
`chars`. -/
def editorUpdateRow (row : erow) : erow :=
  { row with render := renderLoop row.chars [] }

/-! ## editor state -/

/-- `enum editorKey`. -/
def ARROW_LEFT : Int := 1000

/-- `enum editorKey`. -/
def ARROW_RIGHT : Int := 1001

/-- `enum editorKey`. -/
def ARROW_UP : Int := 1002

/-- `enum editorKey`. -/
def ARROW_DOWN : Int := 1003

/-- `enum editorKey`. -/
def DEL_KEY : Int := 1004

/-- `enum editorKey`. -/
def HOME_KEY : Int := 1005

/-- `enum editorKey`. -/
def END_KEY : Int := 1006

/-- `enum editorKey`. -/
def PAGE_UP : Int := 1007

/-- `enum editorKey`. -/
def PAGE_DOWN : Int := 1008

/-- The code `'\x1b'` returned for a plain Escape. -/
def ESC : Int := 27

/-- `struct editorConfig` (without `orig_termios`).  `row` with its length
`numrows` is a list of rows; `filename` is `none` for the NULL pointer;
`statusmsg` holds the bytes before the terminating NUL. -/
structure editorConfig where
  cx : Int
  cy : Int
  rx : Int
  rowoff : Int
  coloff : Int
  screenrows : Int
  screencols : Int
  row : List erow
  filename : Option (List Nat)
  statusmsg : List Nat
  statusmsg_time : Int
deriving DecidableEq

/-- Field `numrows` of `editorConfig`. -/
def editorConfig.numrows (E : editorConfig) : Int := E.row.length

/-- The row `E.row[i]`.  Reading outside `0 .. numrows - 1` is undefined in C;
the model yields an empty row there, and the theorems that depend on such a
read exclude it by hypothesis. -/
def editorConfig.rowAt (E : editorConfig) (i : Int) : erow :=
  if 0 ≤ i then E.row.getD i.toNat ⟨[], []⟩ else ⟨[], []⟩

/-! ## output -/

/-- The first two statements of `editorScroll`:
`E.rx = 0; if (E.cy < E.numrows) E.rx = editorRowCxToRx(&E.row[E.cy], E.cx);` -/
def scrollRx (E : editorConfig) : editorConfig :=
  { E with rx := if E.cy < E.numrows then editorRowCxToRx (E.rowAt E.cy) E.cx else 0 }

/-- `if (E.cy < E.rowoff) E.rowoff = E.cy;` -/
def scrollUp (E : editorConfig) : editorConfig :=
  if E.cy < E.rowoff then { E with rowoff := E.cy } else E

/-- `if (E.cy >= E.rowoff + E.screenrows) E.rowoff = E.cy - E.screenrows + 1;` -/
def scrollDown (E : editorConfig) : editorConfig :=
  if E.cy ≥ E.rowoff + E.screenrows then { E with rowoff := E.cy - E.screenrows + 1 } else E

/-- `if (E.rx < E.coloff) E.coloff = E.rx;` -/
def scrollLeft (E : editorConfig) : editorConfig :=
  if E.rx < E.coloff then { E with coloff := E.rx } else E

/-- `if (E.rx >= E.coloff + E.screencols) E.coloff = E.rx - E.screencols + 1;` -/
def scrollRight (E : editorConfig) : editorConfig :=
  if E.rx ≥ E.coloff + E.screencols then { E with coloff := E.rx - E.screencols + 1 } else E

/-- `void editorScroll()`: its statements in order. -/
def editorScroll (E : editorConfig) : editorConfig :=
  scrollRight (scrollLeft (scrollDown (scrollUp (scrollRx E))))

/-! ## input -/

/-- The pointer `row` of `editorMoveCursor`:
`(E.cy >= E.numrows) ? NULL : &E.row[E.cy]`. -/
def currentRow (E : editorConfig) : Option erow :=
  if E.cy ≥ E.numrows then none else some (E.rowAt E.cy)

/-- The length of the row under the cursor, 0 on the line past the last row:
`rowlen` of `editorMoveCursor`, `row ? row->size : 0`. -/
def rowLen (E : editorConfig) : Int :=
  match currentRow E with
  | some r => r.size
  | none => 0

/-- The `switch (key)` of `editorMoveCursor`; `row` is the pointer computed on
entry, from the cursor before the move. -/
def moveSwitch (E : editorConfig) (key : Int) : editorConfig :=
  let row := currentRow E
  if key = ARROW_LEFT then
    if E.cx ≠ 0 then { E with cx := E.cx - 1 }
    else if E.cy > 0 then { E with cy := E.cy - 1, cx := (E.rowAt (E.cy - 1)).size }
    else E
  else if key = ARROW_RIGHT then
    match row with
    | some r =>
      if E.cx < r.size then { E with cx := E.cx + 1 }
      else if E.cx = r.size then { E with cy := E.cy + 1, cx := 0 }
      else E
    | none => E
  else if key = ARROW_UP then
    if E.cy ≠ 0 then { E with cy := E.cy - 1 } else E
  else if key = ARROW_DOWN then
    if E.cy < E.numrows then { E with cy := E.cy + 1 } else E
  else E

/-- The end of `editorMoveCursor`: `row` is computed again from the new `cy`,
`rowlen = row ? row->size : 0`, and `if (E.cx > rowlen) E.cx = rowlen;`. -/
def snapCx (E : editorConfig) : editorConfig :=
  if E.cx > rowLen E then { E with cx := rowLen E } else E

/-- `void editorMoveCursor(int key)`. -/
def editorMoveCursor (E : editorConfig) (key : Int) : editorConfig :=
  snapCx (moveSwitch E key)

/-! ## terminal -/

/-- What one call `read(STDIN_FILENO, &c, 1)` can do: return 1 and store a
`char` of value `c`, return 0 (no byte within the timeout), or return -1 with
`errno` equal to `EAGAIN` or not. -/
inductive ReadResult where
  | byte (c : Int)
  | timeout
  | error (eagain : Bool)
deriving DecidableEq

/-- How a call of `editorReadKey` ends on a script of read outcomes: it returns
the key `k` leaving `rest` unread, it calls `die("read")`, or the script ends
while the first loop is still waiting for a byte. -/
inductive ReadKeyResult where
  | key (k : Int) (rest : List ReadResult)
  | die (rest : List ReadResult)
  | blocked
deriving DecidableEq

/-- One `read` on the script; once the script is over no byte arrives any more
and each read returns 0. -/
def readStdin : List ReadResult → ReadResult × List ReadResult
  | [] => (ReadResult.timeout, [])
  | r :: rest => (r, rest)

/-- The branch `if (c == '\x1b') { ... }` of `editorReadKey`. -/
def readEscape (input : List ReadResult) : ReadKeyResult :=
  match readStdin input with
  | (ReadResult.byte seq0, in1) =>
    match readStdin in1 with
    | (ReadResult.byte seq1, in2) =>
      if seq0 = 91 then
        if seq1 ≥ 48 ∧ seq1 ≤ 57 then
          match readStdin in2 with
          | (ReadResult.byte seq2, in3) =>
            if seq2 = 126 then
              if seq1 = 49 then ReadKeyResult.key HOME_KEY in3
              else if seq1 = 51 then ReadKeyResult.key DEL_KEY in3
              else if seq1 = 52 then ReadKeyResult.key END_KEY in3
              else if seq1 = 53 then ReadKeyResult.key PAGE_UP in3
              else if seq1 = 54 then ReadKeyResult.key PAGE_DOWN in3
              else if seq1 = 55 then ReadKeyResult.key HOME_KEY in3
              else if seq1 = 56 then ReadKeyResult.key END_KEY in3
              else ReadKeyResult.key ESC in3
            else ReadKeyResult.key ESC in3
          | (_, in3) => ReadKeyResult.key ESC in3
        else
          if seq1 = 65 then ReadKeyResult.key ARROW_UP in2
          else if seq1 = 66 then ReadKeyResult.key ARROW_DOWN in2
          else if seq1 = 67 then ReadKeyResult.key ARROW_RIGHT in2
          else if seq1 = 68 then ReadKeyResult.key ARROW_LEFT in2
          else if seq1 = 72 then ReadKeyResult.key HOME_KEY in2
          else if seq1 = 70 then ReadKeyResult.key END_KEY in2
          else ReadKeyResult.key ESC in2
      else if seq0 = 48 then
        if seq1 = 72 then ReadKeyResult.key HOME_KEY in2
        else if seq1 = 70 then ReadKeyResult.key END_KEY in2
        else ReadKeyResult.key ESC in2
      else ReadKeyResult.key ESC in2
    | (_, in2) => ReadKeyResult.key ESC in2
  | (_, in1) => ReadKeyResult.key ESC in1

/-- `int editorReadKey()`: the first loop reads until a byte arrives, and dies
on a read error other than `EAGAIN`. -/
def editorReadKey : List ReadResult → ReadKeyResult
  | [] => ReadKeyResult.blocked
  | ReadResult.byte c :: rest =>
    if c = 27 then readEscape rest else ReadKeyResult.key c rest
  | ReadResult.timeout :: rest => editorReadKey rest
  | ReadResult.error eagain :: rest =>
    if eagain = false then ReadKeyResult.die rest else editorReadKey rest

/-- Whether a read delivered a byte (`read` returned 1). -/
def ReadResult.isByte : ReadResult → Bool
  | ReadResult.byte _ => true
  | _ => false

/-- Whether a read makes the first loop of `editorReadKey` go round again: it
returned 0, or -1 with `errno == EAGAIN`. -/
def ReadResult.isIdle : ReadResult → Bool
  | ReadResult.timeout => true
  | ReadResult.error eagain => eagain
  | ReadResult.byte _ => false

/-! ## key dispatch -/

/-- `#define CTRL_KEY(k) ((k)&0x1f)`, on a character code. -/
def CTRL_KEY (k : Nat) : Int := ((k &&& 0x1f : Nat) : Int)

/-- The loop `int times = E.screenrows; while (times--) editorMoveCursor(key);`
with `times` passes left to run. -/
def repeatMove : Nat → editorConfig → Int → editorConfig
  | 0, E, _ => E
  | times + 1, E, key => repeatMove times (editorMoveCursor E key) key

/-- The first statement of the `PAGE_UP` / `PAGE_DOWN` case:
`if (c == PAGE_UP) E.cy = E.rowoff; else if (c == PAGE_DOWN) { E.cy = E.rowoff +
E.screenrows - 1; if (E.cy > E.numrows) E.cy = E.numrows; }`. -/
def pageStart (E : editorConfig) (c : Int) : editorConfig :=
  if c = PAGE_UP then { E with cy := E.rowoff }
  else if c = PAGE_DOWN then
    { E with cy := if E.rowoff + E.screenrows - 1 > E.numrows then E.numrows
                   else E.rowoff + E.screenrows - 1 }
  else E

/-- The cases of the `switch (c)` of `editorProcessKeypress` other than the quit
key.  The page loop runs `screenrows` times; a negative `screenrows`, for which
the C loop does not stop at zero, is outside the model. -/
def dispatchKey (E : editorConfig) (c : Int) : editorConfig :=
  if c = HOME_KEY then { E with cx := 0 }
  else if c = END_KEY then
    if E.cy < E.numrows then { E with cx := (E.rowAt E.cy).size } else E
  else if c = PAGE_UP ∨ c = PAGE_DOWN then
    repeatMove E.screenrows.toNat (pageStart E c) (if c = PAGE_UP then ARROW_UP else ARROW_DOWN)
  else if c = ARROW_UP ∨ c = ARROW_DOWN ∨ c = ARROW_LEFT ∨ c = ARROW_RIGHT then
    editorMoveCursor E c
  else E

/-- `void editorProcessKeypress()` on the key `c` that `editorReadKey()`
returned: `none` when the process exits on `CTRL_KEY('q')`. -/
def editorProcessKeypress (E : editorConfig) (c : Int) : Option editorConfig :=
  if c = CTRL_KEY 113 then none else some (dispatchKey E c)

/-- One `PAGE_DOWN` keypress followed by the viewport recompute of the next
`editorRefreshScreen`. -/
def pageDownThenScroll (E : editorConfig) : editorConfig :=
  editorScroll (dispatchKey E PAGE_DOWN)

/-- The cursor is within the buffer bounds: `0 <= cy <= numrows` and
`0 <= cx <=` the length of row `cy` (0 on the line past the last row). -/
def cursorInBounds (E : editorConfig) : Prop :=
  0 ≤ E.cy ∧ E.cy ≤ E.numrows ∧ 0 ≤ E.cx ∧ E.cx ≤ rowLen E

instance (E : editorConfig) : Decidable (cursorInBounds E) := by
  unfold cursorInBounds
  infer_instance

/-! ## appending rows -/

/-- `void editorAppendRow(char *s, size_t len)`: the new row holds the first
`len` bytes of `s` and is rendered at once; `numrows` grows by one. -/
def editorAppendRow (E : editorConfig) (s : List Nat) (len : Nat) : editorConfig :=
  { E with row := E.row ++ [editorUpdateRow ⟨s.take len, []⟩] }

/-! ## message bar -/

/-- `void abAppend(struct abuf *ab, const char *s, int len)`: the buffer with
the first `len` bytes of `s` appended. -/
def abAppend (ab : List Nat) (s : List Nat) (len : Int) : List Nat :=
  ab ++ s.take len.toNat

/-- `void editorDrawMessageBar(struct abuf *ab)`, with the value `now` that
`time(NULL)` returns; `strlen(E.statusmsg)` is the length of `statusmsg`. -/
def editorDrawMessageBar (E : editorConfig) (now : Int) (ab : List Nat) : List Nat :=
  let ab := abAppend ab [27, 91, 75] 3
  let msglen : Int := E.statusmsg.length
  let msglen := if msglen > E.screencols then E.screencols else msglen
  if msglen ≠ 0 ∧ now - E.statusmsg_time < 5 then abAppend ab E.statusmsg msglen else ab

/-- `void editorSetStatusMessage(const char *fmt, ...)`, with `text` the bytes
that the format produces and `now` the value of `time(NULL)`: `vsnprintf` keeps
at most 79 of them in `statusmsg[80]`, and the string ends at the first NUL. -/
def editorSetStatusMessage (E : editorConfig) (text : List Nat) (now : Int) : editorConfig :=
  { E with statusmsg := (text.take 79).takeWhile (fun b => b ≠ 0), statusmsg_time := now }

/-! ## drawing the rows -/

/-- The text that `snprintf(welcome, sizeof(welcome), "MoText -- version %s",
MoTEXT_VERSION)` writes: `MoText -- version 0.0.1`. -/
def welcomeText : List Nat :=
  [77, 111, 84, 101, 120, 116, 32, 45, 45, 32, 118, 101, 114, 115, 105, 111, 110, 32,
    48, 46, 48, 46, 49]

/-- The welcome branch of `editorDrawRows`.  `padding` is not negative for
`screencols >= 0`, where C's `/` is the `/` of `Int` and the loop
`while (padding--)` runs `padding` times. -/
def welcomeRow (E : editorConfig) (ab : List Nat) : List Nat :=
  let welcomelen : Int := welcomeText.length
  let welcomelen := if welcomelen > E.screencols then E.screencols else welcomelen
  let padding := (E.screencols - welcomelen) / 2
  let ab := if padding ≠ 0 then abAppend ab [126] 1 else ab
  let padding := if padding ≠ 0 then padding - 1 else padding
  let ab := ab ++ List.replicate padding.toNat 32
  abAppend ab welcomeText welcomelen

/-- The branch of `editorDrawRows` for a file row inside the buffer:
`len = E.row[filerow].rsize - E.coloff; if (len < 0) len = 0;
if (len > E.screencols) len = E.screencols;
abAppend(ab, &E.row[filerow].render[E.coloff], len);`. -/
def rowSlice (E : editorConfig) (filerow : Int) (ab : List Nat) : List Nat :=
  let len := (E.rowAt filerow).rsize - E.coloff
  let len := if len < 0 then 0 else len
  let len := if len > E.screencols then E.screencols else len
  abAppend ab ((E.rowAt filerow).render.drop E.coloff.toNat) len

/-- The body of the loop of `editorDrawRows` for the screen row `y`. -/
def drawRow (E : editorConfig) (y : Int) (ab : List Nat) : List Nat :=
  let filerow := y + E.rowoff
  let ab :=
    if filerow ≥ E.numrows then
      if E.numrows = 0 ∧ y = E.screenrows / 3 then welcomeRow E ab
      else abAppend ab [126] 1
    else rowSlice E filerow ab
  let ab := abAppend ab [27, 91, 75] 3
  abAppend ab [13, 10] 2

/-- `void editorDrawRows(struct abuf *ab)`: the loop
`for (y = 0; y < E.screenrows; y++)`. -/
def editorDrawRows (E : editorConfig) (ab : List Nat) : List Nat :=
  (List.range E.screenrows.toNat).foldl (fun ab (y : Nat) => drawRow E (y : Int) ab) ab

/-! ## status bar -/

/-- The bytes that `%d` prints for an `int`. -/
def fmtInt (n : Int) : List Nat :=
  if n < 0 then 45 :: (Nat.toDigits 10 n.natAbs).map Char.toNat
  else (Nat.toDigits 10 n.toNat).map Char.toNat

/-- The text of `"%.20s - %d lines"` for
`E.filename ? E.filename : "[No Name]"` and `E.numrows`. -/
def statusText (E : editorConfig) : List Nat :=
  (match E.filename with
    | some name => name
    | none => [91, 78, 111, 32, 78, 97, 109, 101, 93]).take 20
  ++ [32, 45, 32] ++ fmtInt E.numrows ++ [32, 108, 105, 110, 101, 115]

/-- The text of `"%d/%d"` for `E.cy + 1` and `E.numrows`. -/
def rstatusText (E : editorConfig) : List Nat :=
  fmtInt (E.cy + 1) ++ [47] ++ fmtInt E.numrows

/-- The loop of `editorDrawStatusBar`:
`while (len < E.screencols) { if (E.screencols - len == rlen) { abAppend(ab,
rstatus, rlen); break; } else { abAppend(ab, " ", 1); len ++; } }`. -/
def statusLoop (screencols rlen : Int) (rstatus : List Nat) (len : Int) (ab : List Nat) :
    List Nat :=
  if len < screencols then
    if screencols - len = rlen then abAppend ab rstatus rlen
    else statusLoop screencols rlen rstatus (len + 1) (abAppend ab [32] 1)
  else ab
termination_by (screencols - len).toNat
decreasing_by
  omega

/-- The part of `editorDrawStatusBar` between the two styling codes, for the
texts `status` and `rstatus` that the two `snprintf` calls left in their
buffers and the lengths `len` and `rlen` that they returned. -/
def statusBarBody (screencols : Int) (status rstatus : List Nat) (len rlen : Int)
    (ab : List Nat) : List Nat :=
  let len := if len > screencols then screencols else len
  let ab := abAppend ab status len
  statusLoop screencols rlen rstatus len ab

/-- `void editorDrawStatusBar(struct abuf *ab)`; `snprintf` keeps at most 79
bytes in an 80-byte buffer and returns the length of the whole text. -/
def editorDrawStatusBar (E : editorConfig) (ab : List Nat) : List Nat :=
  let ab := abAppend ab [27, 91, 55, 109] 4
  let ab := statusBarBody E.screencols ((statusText E).take 79) ((rstatusText E).take 79)
    (statusText E).length (rstatusText E).length ab
  let ab := abAppend ab [27, 91, 109] 3
  abAppend ab [13, 10] 2

/-! ## init and the main loop -/

/-- `void initEditor()`, with the `rows` and `cols` that `getWindowSize`
stored; the status line and the message line take two rows. -/
def initEditor (rows cols : Int) : editorConfig :=
  { cx := 0, cy := 0, rx := 0, rowoff := 0, coloff := 0, screenrows := rows - 2,
    screencols := cols, row := [], filename := none, statusmsg := [], statusmsg_time := 0 }

/-- The loop of `editorOpen` that drops the trailing newline and carriage
return bytes: `while (linelen > 0 && (line[linelen - 1] == '\n' ||
line[linelen - 1] == '\r')) linelen --;`. -/
def stripLen (line : List Nat) : Nat → Nat
  | 0 => 0
  | linelen + 1 =>
    if line.getD linelen 0 = 10 ∨ line.getD linelen 0 = 13 then stripLen line linelen
    else linelen + 1

/-- `void editorOpen(char *filename)`, with `lines` the lines that `getline`
returns for the opened file, in order. -/
def editorOpen (E : editorConfig) (filename : List Nat) (lines : List (List Nat)) :
    editorConfig :=
  lines.foldl (fun E line => editorAppendRow E line (stripLen line line.length))
    { E with filename := some filename }

/-- One pass of the loop of `main`: `editorRefreshScreen()`, whose only change
to the editor state is `editorScroll()`, then `editorProcessKeypress()` on the
key `c`; `none` when the process exits. -/
def mainCycle (E : editorConfig) (c : Int) : Option editorConfig :=
  editorProcessKeypress (editorScroll E) c

/-- The loop of `main` over the keys that `editorReadKey` returns, one per
pass. -/
def runKeys : editorConfig → List Int → Option editorConfig
  | E, [] => some E
  | E, c :: keys =>
    match mainCycle E c with
    | some E1 => runKeys E1 keys
    | none => none

/-! ## the tab walk as the specification words it -/

/-- The reference tab walk: scanning `raw` left to right, a tab met when the
output holds `c` bytes emits `8 - c % 8` spaces, any other byte is copied. -/
def tabWalk (out : List Nat) : List Nat → List Nat
  | [] => out
  | b :: raw =>
    if b = 9 then tabWalk (out ++ List.replicate (8 - out.length % 8) 32) raw
    else tabWalk (out ++ [b]) raw

/-! ## the viewport rule as the specification words it -/

/-- The rule of the viewport controller for a cursor position `pos`, the
previous offset `off` and the window size `size`: if `pos < off` the offset
becomes `pos`; else if `pos >= off + size` it becomes `pos - size + 1`;
otherwise it stays. -/
def viewportRule (pos off size : Int) : Int :=
  if pos < off then pos
  else if pos ≥ off + size then pos - size + 1
  else off

/-! ## lemmas on the row operations -/

theorem padLoop_eq (render : List Nat) :
    padLoop render = render ++ List.replicate ((8 - render.length % 8) % 8) SPACE := by
  induction render using padLoop.induct with
  | case1 r h ih =>
    rw [padLoop, if_pos h, ih]
    simp only [MoTEXT_TAB_STOP, List.length_append, List.length_singleton] at *
    have e : (8 - r.length % 8) % 8 = (8 - (r.length + 1) % 8) % 8 + 1 := by omega
    rw [e, List.replicate_succ, List.append_assoc]
    rfl
  | case2 r h =>
    rw [padLoop, if_neg h]
    simp only [MoTEXT_TAB_STOP] at h
    have e : (8 - r.length % 8) % 8 = 0 := by omega
    simp [e]

theorem padLoop_space (render : List Nat) :
    padLoop (render ++ [SPACE]) = render ++ List.replicate (8 - render.length % 8) SPACE := by
  rw [padLoop_eq]
  simp only [List.length_append, List.length_singleton]
  have e : 8 - render.length % 8 = (8 - (render.length + 1) % 8) % 8 + 1 := by omega
  rw [e, List.replicate_succ, List.append_assoc]
  rfl

theorem renderLoop_eq_tabWalk (chars render : List Nat) :
    renderLoop chars render = tabWalk render chars := by
  induction chars generalizing render with
  | nil => rfl
  | cons c cs ih =>
    by_cases h : c = 9
    · subst h
      have t : (9 : Nat) = TAB := rfl
      rw [renderLoop, if_pos t, padLoop_space, ih, tabWalk, if_pos rfl]
      rfl
    · simp only [renderLoop, tabWalk, TAB, h, if_false, ih]

theorem renderLoop_length (chars render : List Nat) :
    ((renderLoop chars render).length : Int) = chars.foldl rxStep (render.length : Int) := by
  induction chars generalizing render with
  | nil => rfl
  | cons c cs ih =>
    by_cases h : c = TAB
    · rw [renderLoop, if_pos h, ih, padLoop_space, List.foldl_cons]
      congr 1
      simp only [rxStep, h, if_true, MoTEXT_TAB_STOP, List.length_append, List.length_replicate]
      omega
    · rw [renderLoop, if_neg h, ih, List.foldl_cons]
      congr 1
      simp only [rxStep, h, if_false, List.length_append, List.length_singleton]
      omega

theorem foldl_range_getD (chars : List Nat) (init : Int) (n : Nat) (hn : n ≤ chars.length) :
    (List.range n).foldl (fun rx j => rxStep rx (chars.getD j 0)) init
      = (chars.take n).foldl rxStep init := by
  induction n with
  | zero => simp
  | succ k ih =>
    have hk : k < chars.length := hn
    rw [List.range_succ, List.foldl_append, ih (Nat.le_of_lt hk), List.take_succ,
      List.foldl_append]
    simp [List.getD, List.getElem?_eq_getElem hk]

theorem rxStep_ge (rx : Int) (c : Nat) : rx + 1 ≤ rxStep rx c := by
  unfold rxStep
  simp only [MoTEXT_TAB_STOP]
  split <;> omega

theorem editorRowCxToRx_succ (row : erow) (n : Nat) :
    editorRowCxToRx row ((n : Int) + 1)
      = rxStep (editorRowCxToRx row (n : Int)) (row.chars.getD n 0) := by
  have e : ((n : Int) + 1).toNat = n + 1 := by omega
  simp only [editorRowCxToRx, e, Int.toNat_ofNat, List.range_succ, List.foldl_append,
    List.foldl_cons, List.foldl_nil]

theorem editorRowCxToRx_add (row : erow) (n k : Nat) :
    editorRowCxToRx row (n : Int) + k ≤ editorRowCxToRx row ((n + k : Nat) : Int) := by
  induction k with
  | zero => simp
  | succ k ih =>
    have e : ((n + (k + 1) : Nat) : Int) = ((n + k : Nat) : Int) + 1 := by push_cast; ring
    rw [e, editorRowCxToRx_succ]
    have := rxStep_ge (editorRowCxToRx row ((n + k : Nat) : Int)) (row.chars.getD (n + k) 0)
    push_cast at *
    omega

/-! ## row rendering and the coordinate mapper -/

/-- C1: for every row, `editorUpdateRow` leaves `chars` alone and renders it to
the reference tab walk of `chars`, in which a tab met at output length `c` emits
`8 - c % 8` spaces (between 1 and 8, ending on a multiple of 8) and any other
byte is copied; a row that is a single tab renders to 8 spaces, and a tab that
follows 6 plain bytes renders to 2 spaces. -/
theorem editorUpdateRow_render_eq_tabWalk (row : erow) (old plain : List Nat) :
    (editorUpdateRow row).render = tabWalk [] row.chars
    ∧ (editorUpdateRow row).chars = row.chars
    ∧ (∀ c : Nat, 1 ≤ 8 - c % 8 ∧ 8 - c % 8 ≤ 8 ∧ (c + (8 - c % 8)) % 8 = 0)
    ∧ (editorUpdateRow ⟨[9], old⟩).render = List.replicate 8 32
    ∧ (plain.length = 6 → 9 ∉ plain →
        (editorUpdateRow ⟨plain ++ [9], old⟩).render = plain ++ [32, 32]) := by
  refine ⟨renderLoop_eq_tabWalk _ _, rfl, fun c => by omega, ?_, ?_⟩
  · show renderLoop [9] [] = _
    rw [renderLoop_eq_tabWalk]
    rfl
  · intro hlen hno
    show renderLoop (plain ++ [9]) [] = _
    rw [renderLoop_eq_tabWalk]
    match plain, hlen, hno with
    | [a, b, c, d, e, f], _, hno =>
      simp only [List.mem_cons, List.mem_singleton, List.not_mem_nil, or_false, not_or] at hno
      obtain ⟨ha, hb, hc, hd, he, hf⟩ := hno
      simp [tabWalk, Ne.symm ha, Ne.symm hb, Ne.symm hc, Ne.symm hd, Ne.symm he, Ne.symm hf]

/-- Witness of C1: the row `1 2 3 4 5 6 TAB` renders to `1 2 3 4 5 6` followed
by two spaces. -/
theorem editorUpdateRow_render_eq_tabWalk_witness :
    (editorUpdateRow ⟨[1, 2, 3, 4, 5, 6] ++ [9], []⟩).render = [1, 2, 3, 4, 5, 6] ++ [32, 32] :=
  (editorUpdateRow_render_eq_tabWalk ⟨[], []⟩ [] [1, 2, 3, 4, 5, 6]).2.2.2.2
    (by decide) (by decide)

/-- C2: for every row, once `editorUpdateRow` has rendered it,
`editorRowCxToRx(row, row.size)` equals `row.rsize`. -/
theorem editorRowCxToRx_size_eq_rsize (row : erow) :
    editorRowCxToRx (editorUpdateRow row) (editorUpdateRow row).size
      = (editorUpdateRow row).rsize := by
  show editorRowCxToRx (editorUpdateRow row) (row.chars.length : Int)
      = ((renderLoop row.chars []).length : Int)
  rw [renderLoop_length]
  show (List.range (row.chars.length : Int).toNat).foldl
      (fun rx j => rxStep rx (row.chars.getD j 0)) 0 = _
  rw [Int.toNat_ofNat, foldl_range_getD _ _ _ (Nat.le_refl _), List.take_length]
  rfl

/-- C3: for every row and every `cx` with `0 <= cx < row.size`,
`editorRowCxToRx(row, cx + 1) >= editorRowCxToRx(row, cx) + 1`; hence on
`0 .. row.size` the mapping is non-decreasing, and strictly increasing. -/
theorem editorRowCxToRx_increases (row : erow) :
    (∀ cx : Int, 0 ≤ cx → cx < row.size →
        editorRowCxToRx row (cx + 1) ≥ editorRowCxToRx row cx + 1)
    ∧ (∀ a b : Int, 0 ≤ a → a ≤ b → b ≤ row.size →
        editorRowCxToRx row a ≤ editorRowCxToRx row b)
    ∧ (∀ a b : Int, 0 ≤ a → a < b → b ≤ row.size →
        editorRowCxToRx row a < editorRowCxToRx row b) := by
  have key : ∀ a b : Int, 0 ≤ a → a ≤ b →
      editorRowCxToRx row a + (b - a) ≤ editorRowCxToRx row b := by
    intro a b ha hab
    obtain ⟨n, rfl⟩ := Int.eq_ofNat_of_zero_le ha
    obtain ⟨k, hk⟩ := Int.eq_ofNat_of_zero_le (show 0 ≤ b - (n : Int) by omega)
    have hb : b = ((n + k : Nat) : Int) := by push_cast; omega
    rw [hk, hb]
    exact editorRowCxToRx_add row n k
  refine ⟨fun cx h0 _ => ?_, fun a b ha hab _ => ?_, fun a b ha hab _ => ?_⟩
  · have := key cx (cx + 1) h0 (by omega)
    omega
  · have := key a b ha hab
    omega
  · have := key a b ha (by omega)
    omega

/-- Witness of C3 on the row `a TAB b`: stepping over the tab at `cx = 1`. -/
theorem editorRowCxToRx_increases_witness :
    (0 : Int) ≤ 1 ∧ (1 : Int) < (erow.mk [97, 9, 98] []).size
    ∧ editorRowCxToRx ⟨[97, 9, 98], []⟩ (1 + 1) ≥ editorRowCxToRx ⟨[97, 9, 98], []⟩ 1 + 1 :=
  ⟨by decide, by decide,
    (editorRowCxToRx_increases ⟨[97, 9, 98], []⟩).1 1 (by decide) (by decide)⟩

/-! ## viewport -/

/-- C4: for every editor state with `screenrows >= 1`, `screencols >= 1` and a
cursor within buffer bounds (`0 <= cy <= numrows`, `0 <= cx <=` length of row
`cy`), after `editorScroll` the cursor is inside the window:
`rowoff <= cy < rowoff + screenrows` and `coloff <= rx < coloff + screencols`,
whatever `rowoff` and `coloff` were before. -/
theorem editorScroll_cursor_in_window (E : editorConfig)
    (hrows : 1 ≤ E.screenrows) (hcols : 1 ≤ E.screencols)
    (_hcy : 0 ≤ E.cy ∧ E.cy ≤ E.numrows)
    (_hcx : 0 ≤ E.cx ∧ E.cx ≤ rowLen E) :
    (editorScroll E).rowoff ≤ (editorScroll E).cy
    ∧ (editorScroll E).cy < (editorScroll E).rowoff + (editorScroll E).screenrows
    ∧ (editorScroll E).coloff ≤ (editorScroll E).rx
    ∧ (editorScroll E).rx < (editorScroll E).coloff + (editorScroll E).screencols := by
  have hrows1 : 1 ≤ (scrollRx E).screenrows := hrows
  have hcols1 : 1 ≤ (scrollRx E).screencols := hcols
  unfold editorScroll
  generalize scrollRx E = E1 at hrows1 hcols1 ⊢
  unfold scrollRight scrollLeft scrollDown scrollUp
  refine ⟨?_, ?_, ?_, ?_⟩ <;> split_ifs <;> simp only [] at * <;> omega

/-- Witness of C4: a 24 x 80 window on a one-row buffer `TAB x`, cursor at the
end of the row, with stale offsets `rowoff = 7` and `coloff = -3`. -/
theorem editorScroll_cursor_in_window_witness :
    (editorScroll ⟨2, 0, 0, 7, -3, 24, 80, [⟨[9, 120], []⟩], none, [], 0⟩).rowoff
      ≤ (editorScroll ⟨2, 0, 0, 7, -3, 24, 80, [⟨[9, 120], []⟩], none, [], 0⟩).cy
    ∧ (editorScroll ⟨2, 0, 0, 7, -3, 24, 80, [⟨[9, 120], []⟩], none, [], 0⟩).cy
      < (editorScroll ⟨2, 0, 0, 7, -3, 24, 80, [⟨[9, 120], []⟩], none, [], 0⟩).rowoff
        + (editorScroll ⟨2, 0, 0, 7, -3, 24, 80, [⟨[9, 120], []⟩], none, [], 0⟩).screenrows
    ∧ (editorScroll ⟨2, 0, 0, 7, -3, 24, 80, [⟨[9, 120], []⟩], none, [], 0⟩).coloff
      ≤ (editorScroll ⟨2, 0, 0, 7, -3, 24, 80, [⟨[9, 120], []⟩], none, [], 0⟩).rx
    ∧ (editorScroll ⟨2, 0, 0, 7, -3, 24, 80, [⟨[9, 120], []⟩], none, [], 0⟩).rx
      < (editorScroll ⟨2, 0, 0, 7, -3, 24, 80, [⟨[9, 120], []⟩], none, [], 0⟩).coloff
        + (editorScroll ⟨2, 0, 0, 7, -3, 24, 80, [⟨[9, 120], []⟩], none, [], 0⟩).screencols :=
  editorScroll_cursor_in_window ⟨2, 0, 0, 7, -3, 24, 80, [⟨[9, 120], []⟩], none, [], 0⟩
    (by decide) (by decide) (by decide) (by decide)

/-! ## key decoding -/

theorem editorReadKey_skip_idle (idle input : List ReadResult)
    (h : ∀ r ∈ idle, r.isIdle = true) :
    editorReadKey (idle ++ input) = editorReadKey input := by
  induction idle with
  | nil => rfl
  | cons r rs ih =>
    have hr := h r (List.mem_cons_self _ _)
    have hrs : ∀ x ∈ rs, x.isIdle = true := fun x hx => h x (List.mem_cons_of_mem _ hx)
    cases r with
    | byte c => simp [ReadResult.isIdle] at hr
    | timeout => simpa [editorReadKey] using ih hrs
    | error eagain =>
      simp only [ReadResult.isIdle] at hr
      subst hr
      simpa [editorReadKey] using ih hrs

/-- C5: on a stream whose next bytes are `ESC [` and a recognised tail,
`editorReadKey` returns the tabled key and leaves the bytes after the sequence
unread: `ESC [ d ~` gives Home for `d` = 1 or 7, Delete for 3, End for 4 or 8,
PageUp for 5, PageDown for 6; `ESC [ L` gives Up, Down, Right, Left, Home, End
for `L` = A, B, C, D, H, F. -/
theorem editorReadKey_bracket_sequences (rest : List ReadResult) :
    editorReadKey (.byte 27 :: .byte 91 :: .byte 49 :: .byte 126 :: rest) = .key HOME_KEY rest
    ∧ editorReadKey (.byte 27 :: .byte 91 :: .byte 55 :: .byte 126 :: rest) = .key HOME_KEY rest
    ∧ editorReadKey (.byte 27 :: .byte 91 :: .byte 51 :: .byte 126 :: rest) = .key DEL_KEY rest
    ∧ editorReadKey (.byte 27 :: .byte 91 :: .byte 52 :: .byte 126 :: rest) = .key END_KEY rest
    ∧ editorReadKey (.byte 27 :: .byte 91 :: .byte 56 :: .byte 126 :: rest) = .key END_KEY rest
    ∧ editorReadKey (.byte 27 :: .byte 91 :: .byte 53 :: .byte 126 :: rest) = .key PAGE_UP rest
    ∧ editorReadKey (.byte 27 :: .byte 91 :: .byte 54 :: .byte 126 :: rest) = .key PAGE_DOWN rest
    ∧ editorReadKey (.byte 27 :: .byte 91 :: .byte 65 :: rest) = .key ARROW_UP rest
    ∧ editorReadKey (.byte 27 :: .byte 91 :: .byte 66 :: rest) = .key ARROW_DOWN rest
    ∧ editorReadKey (.byte 27 :: .byte 91 :: .byte 67 :: rest) = .key ARROW_RIGHT rest
    ∧ editorReadKey (.byte 27 :: .byte 91 :: .byte 68 :: rest) = .key ARROW_LEFT rest
    ∧ editorReadKey (.byte 27 :: .byte 91 :: .byte 72 :: rest) = .key HOME_KEY rest
    ∧ editorReadKey (.byte 27 :: .byte 91 :: .byte 70 :: rest) = .key END_KEY rest := by
  refine ⟨?_, ?_, ?_, ?_, ?_, ?_, ?_, ?_, ?_, ?_, ?_, ?_, ?_⟩ <;> rfl

/-- C6, as the code behaves: on `ESC`, the letter `O` (0x4F), then `H` or `F`,
`editorReadKey` returns the plain Escape code, not Home or End; the branch that
maps `H` and `F` tests the second byte against the digit `0` (0x30). -/
theorem editorReadKey_ESC_letterO (rest : List ReadResult) :
    editorReadKey (.byte 27 :: .byte 79 :: .byte 72 :: rest) = .key ESC rest
    ∧ editorReadKey (.byte 27 :: .byte 79 :: .byte 70 :: rest) = .key ESC rest
    ∧ ReadKeyResult.key ESC rest ≠ .key HOME_KEY rest
    ∧ ReadKeyResult.key ESC rest ≠ .key END_KEY rest := by
  refine ⟨rfl, rfl, ?_, ?_⟩ <;> simp [ESC, HOME_KEY, END_KEY]

/-- C7: when the first byte is `ESC` and a lookahead read yields no byte (the
first read, the second read, or the third read that follows `ESC [ digit`),
`editorReadKey` returns the plain Escape code 0x1B and what follows the failed
read is left unread; a lone `ESC` decodes to Escape. -/
theorem editorReadKey_lookahead_fails (input : List ReadResult) (seq0 digit : Int)
    (hfail : (readStdin input).1.isByte = false) (hdigit : 48 ≤ digit ∧ digit ≤ 57) :
    editorReadKey (.byte 27 :: input) = .key ESC (readStdin input).2
    ∧ editorReadKey (.byte 27 :: .byte seq0 :: input) = .key ESC (readStdin input).2
    ∧ editorReadKey (.byte 27 :: .byte 91 :: .byte digit :: input)
        = .key ESC (readStdin input).2
    ∧ editorReadKey [.byte 27] = .key ESC []
    ∧ ESC = 0x1B := by
  rcases hrs : readStdin input with ⟨r, after⟩
  rw [hrs] at hfail
  refine ⟨?_, ?_, ?_, rfl, rfl⟩
  · cases r <;> simp_all [editorReadKey, readEscape, ReadResult.isByte]
  · cases r <;> simp_all [editorReadKey, readEscape, readStdin, ReadResult.isByte]
  · cases r <;> simp_all [editorReadKey, readEscape, readStdin, ReadResult.isByte]

/-- Witness of C7: the third read times out after `ESC [ 5`, and a byte that
arrives later stays unread. -/
theorem editorReadKey_lookahead_fails_witness :
    editorReadKey [.byte 27, .timeout, .byte 65] = .key ESC [.byte 65]
    ∧ editorReadKey [.byte 27, .byte 91, .timeout, .byte 65] = .key ESC [.byte 65]
    ∧ editorReadKey [.byte 27, .byte 91, .byte 53, .timeout, .byte 65] = .key ESC [.byte 65]
    ∧ editorReadKey [.byte 27] = .key ESC []
    ∧ ESC = 0x1B :=
  editorReadKey_lookahead_fails [.timeout, .byte 65] 91 53 (by decide) (by decide)

/-- What the decoder does with the sequences it does not recognise: the bytes
read are dropped and the plain Escape code is returned. -/
theorem editorReadKey_unrecognised (seq0 seq1 seq2 : Int) (rest : List ReadResult) :
    (seq0 ≠ 91 → seq0 ≠ 48 →
        editorReadKey (.byte 27 :: .byte seq0 :: .byte seq1 :: rest) = .key ESC rest)
    ∧ (seq1 ≠ 72 → seq1 ≠ 70 →
        editorReadKey (.byte 27 :: .byte 48 :: .byte seq1 :: rest) = .key ESC rest)
    ∧ (¬ (48 ≤ seq1 ∧ seq1 ≤ 57) → seq1 ∉ [65, 66, 67, 68, 72, 70] →
        editorReadKey (.byte 27 :: .byte 91 :: .byte seq1 :: rest) = .key ESC rest)
    ∧ (48 ≤ seq1 ∧ seq1 ≤ 57 → seq2 ≠ 126 ∨ seq1 ∉ [49, 51, 52, 53, 54, 55, 56] →
        editorReadKey (.byte 27 :: .byte 91 :: .byte seq1 :: .byte seq2 :: rest)
          = .key ESC rest) := by
  refine ⟨?_, ?_, ?_, ?_⟩
  · intro h1 h2
    simp [editorReadKey, readEscape, readStdin, h1, h2]
  · intro h1 h2
    simp [editorReadKey, readEscape, readStdin, h1, h2]
  · intro h1 h2
    simp only [List.mem_cons, List.mem_singleton, List.not_mem_nil, or_false, not_or] at h2
    obtain ⟨a, b, c, d, e, f⟩ := h2
    simp only [editorReadKey, readEscape, readStdin, if_true, ge_iff_le, h1, if_false, a, b, c,
      d, e, f]
  · intro h1 h2
    simp only [editorReadKey, readEscape, readStdin, if_true, ge_iff_le, h1, and_self]
    rcases h2 with h2 | h2
    · rw [if_neg h2]
    · simp only [List.mem_cons, List.mem_singleton, List.not_mem_nil, or_false, not_or] at h2
      obtain ⟨a, b, c, d, e, f, g⟩ := h2
      simp only [a, b, c, d, e, f, g, if_false, ite_self]

/-- C8, as the code behaves: `ESC 0 H` and `ESC 0 F` (second byte the digit
zero, 0x30) are none of the known patterns, yet `editorReadKey` returns Home and
End for them, not the plain Escape code. -/
theorem editorReadKey_ESC_digit0 (rest : List ReadResult) :
    editorReadKey (.byte 27 :: .byte 48 :: .byte 72 :: rest) = .key HOME_KEY rest
    ∧ editorReadKey (.byte 27 :: .byte 48 :: .byte 70 :: rest) = .key END_KEY rest
    ∧ ReadKeyResult.key HOME_KEY rest ≠ .key ESC rest
    ∧ ReadKeyResult.key END_KEY rest ≠ .key ESC rest := by
  refine ⟨rfl, rfl, ?_, ?_⟩ <;> simp [ESC, HOME_KEY, END_KEY]

theorem readEscape_reads (input : List ReadResult) :
    ∃ k n, n ≤ 3 ∧ readEscape input = .key k (input.drop n) := by
  unfold readEscape
  rcases input with _ | ⟨r0, in1⟩
  · exact ⟨_, 0, by omega, rfl⟩
  cases r0 with
  | timeout => exact ⟨_, 1, by omega, rfl⟩
  | error e => exact ⟨_, 1, by omega, rfl⟩
  | byte seq0 =>
    rcases in1 with _ | ⟨r1, in2⟩
    · exact ⟨_, 1, by omega, rfl⟩
    cases r1 with
    | timeout => exact ⟨_, 2, by omega, rfl⟩
    | error e => exact ⟨_, 2, by omega, rfl⟩
    | byte seq1 =>
      simp only [readStdin]
      by_cases h0 : seq0 = 91
      · by_cases hd : seq1 ≥ 48 ∧ seq1 ≤ 57
        · rw [if_pos h0, if_pos hd]
          rcases in2 with _ | ⟨r2, in3⟩
          · exact ⟨_, 2, by omega, rfl⟩
          cases r2 with
          | timeout => exact ⟨_, 3, by omega, rfl⟩
          | error e => exact ⟨_, 3, by omega, rfl⟩
          | byte seq2 =>
            simp only []
            split_ifs <;> exact ⟨_, 3, by omega, rfl⟩
        · rw [if_pos h0, if_neg hd]
          split_ifs <;> exact ⟨_, 2, by omega, rfl⟩
      · rw [if_neg h0]
        split_ifs <;> exact ⟨_, 2, by omega, rfl⟩

/-- C9: a first byte `c` other than `ESC` (after any number of reads that
brought nothing) is returned as the key `c` and is the only byte consumed; when
the first byte is `ESC`, one key is returned after at most 3 further reads. -/
theorem editorReadKey_one_key (idle rest : List ReadResult) (c : Int)
    (hidle : ∀ r ∈ idle, r.isIdle = true) (hc : c ≠ 27) :
    editorReadKey (idle ++ .byte c :: rest) = .key c rest
    ∧ ∃ k n, n ≤ 3 ∧ editorReadKey (idle ++ .byte 27 :: rest) = .key k (rest.drop n) := by
  rw [editorReadKey_skip_idle _ _ hidle, editorReadKey_skip_idle _ _ hidle]
  refine ⟨?_, ?_⟩
  · simp [editorReadKey, hc]
  · simpa [editorReadKey] using readEscape_reads rest

/-- Witness of C9: after a timeout and an `EAGAIN`, the byte `q` is returned
as itself and the byte after it stays unread. -/
theorem editorReadKey_one_key_witness :
    editorReadKey ([.timeout, .error true] ++ .byte 113 :: [.byte 27, .byte 91]) =
        .key 113 [.byte 27, .byte 91]
    ∧ ∃ k n, n ≤ 3 ∧ editorReadKey ([.timeout, .error true] ++ .byte 27 :: [.byte 27, .byte 91])
        = .key k (List.drop n [.byte 27, .byte 91]) :=
  editorReadKey_one_key [.timeout, .error true] [.byte 27, .byte 91] 113 (by decide) (by decide)

/-! ## cursor movement -/

theorem rowLen_nonneg (E : editorConfig) : 0 ≤ rowLen E := by
  unfold rowLen
  split
  · exact Int.ofNat_nonneg _
  · exact le_refl _

/-- C10: `editorMoveCursor(ARROW_LEFT)` from `(cx = 0, cy = k)` with
`0 < k <= numrows` yields `(length of row k-1, k-1)`; from `(cx > 0, cy)` with
`cx - 1` a column of row `cy` (so from every cursor within the buffer bounds,
`cx <=` length of row `cy`) it yields `(cx - 1, cy)`; from `(0, 0)` it leaves
the state unchanged. -/
theorem editorMoveCursor_left (E : editorConfig) :
    (∀ k : Int, 0 < k → k ≤ E.numrows → E.cx = 0 → E.cy = k →
        (editorMoveCursor E ARROW_LEFT).cx = (E.rowAt (k - 1)).size
        ∧ (editorMoveCursor E ARROW_LEFT).cy = k - 1)
    ∧ (E.cx > 0 → 0 ≤ E.cy → E.cx - 1 ≤ rowLen E →
        (editorMoveCursor E ARROW_LEFT).cx = E.cx - 1
        ∧ (editorMoveCursor E ARROW_LEFT).cy = E.cy)
    ∧ (E.cx = 0 → E.cy = 0 → editorMoveCursor E ARROW_LEFT = E) := by
  refine ⟨?_, ?_, ?_⟩
  · intro k hk hkn hcx hcy
    have hsw : moveSwitch E ARROW_LEFT
        = { E with cy := E.cy - 1, cx := (E.rowAt (E.cy - 1)).size } := by
      simp only [moveSwitch, if_true, hcx, ne_eq, not_true_eq_false, if_false]
      rw [if_pos (by omega)]
    have hlen : rowLen { E with cy := E.cy - 1, cx := (E.rowAt (E.cy - 1)).size }
        = (E.rowAt (E.cy - 1)).size := by
      have : ¬ (E.cy - 1 ≥ E.numrows) := by omega
      simp only [rowLen, currentRow, editorConfig.numrows, editorConfig.rowAt] at this ⊢
      rw [if_neg this]
    unfold editorMoveCursor snapCx
    rw [hsw, hlen, if_neg (lt_irrefl _), ← hcy]
    exact ⟨rfl, rfl⟩
  · intro hpos hcy hin
    have hsw : moveSwitch E ARROW_LEFT = { E with cx := E.cx - 1 } := by
      have : E.cx ≠ 0 := by omega
      simp only [moveSwitch, if_true, this, ne_eq, not_false_eq_true]
    have hlen : rowLen { E with cx := E.cx - 1 } = rowLen E := rfl
    unfold editorMoveCursor snapCx
    rw [hsw, hlen, if_neg (by show ¬ (E.cx - 1 > rowLen E); omega)]
    exact ⟨rfl, rfl⟩
  · intro hcx hcy
    have hsw : moveSwitch E ARROW_LEFT = E := by
      simp only [moveSwitch, if_true, hcx, hcy, ne_eq, not_true_eq_false, if_false,
        gt_iff_lt, lt_self_iff_false]
    unfold editorMoveCursor snapCx
    have := rowLen_nonneg E
    rw [hsw, if_neg (by omega)]

/-- Witness of C10 on the buffer `abc`, `d`: from the start of row 1 the cursor
wraps to the end of row 0, and from column 2 of row 0 it steps to column 1. -/
theorem editorMoveCursor_left_witness :
    ((editorMoveCursor ⟨0, 1, 0, 0, 0, 24, 80, [⟨[97, 98, 99], []⟩, ⟨[100], []⟩], none, [], 0⟩
        ARROW_LEFT).cx = 3
      ∧ (editorMoveCursor ⟨0, 1, 0, 0, 0, 24, 80, [⟨[97, 98, 99], []⟩, ⟨[100], []⟩], none, [], 0⟩
        ARROW_LEFT).cy = 0)
    ∧ ((editorMoveCursor ⟨2, 0, 0, 0, 0, 24, 80, [⟨[97, 98, 99], []⟩, ⟨[100], []⟩], none, [], 0⟩
        ARROW_LEFT).cx = 1
      ∧ (editorMoveCursor ⟨2, 0, 0, 0, 0, 24, 80, [⟨[97, 98, 99], []⟩, ⟨[100], []⟩], none, [], 0⟩
        ARROW_LEFT).cy = 0) :=
  ⟨(editorMoveCursor_left
      ⟨0, 1, 0, 0, 0, 24, 80, [⟨[97, 98, 99], []⟩, ⟨[100], []⟩], none, [], 0⟩).1 1
      (by decide) (by decide) rfl rfl,
    (editorMoveCursor_left
      ⟨2, 0, 0, 0, 0, 24, 80, [⟨[97, 98, 99], []⟩, ⟨[100], []⟩], none, [], 0⟩).2.1
      (by decide) (by decide) (by decide)⟩

theorem moveSwitch_frame (E : editorConfig) (key : Int) :
    ∃ cx cy, moveSwitch E key = { E with cx := cx, cy := cy } := by
  unfold moveSwitch
  dsimp only
  split_ifs
  any_goals exact ⟨_, _, rfl⟩
  split
  · split_ifs <;> exact ⟨_, _, rfl⟩
  · exact ⟨_, _, rfl⟩

theorem snapCx_eq (E : editorConfig) : snapCx E = { E with cx := min E.cx (rowLen E) } := by
  unfold snapCx
  split_ifs with h
  · rw [min_eq_right (le_of_lt h)]
  · rw [min_eq_left (not_lt.mp h)]

theorem rowLen_congr (E F : editorConfig) (hcy : E.cy = F.cy) (hrow : E.row = F.row) :
    rowLen E = rowLen F := by
  simp only [rowLen, currentRow, editorConfig.numrows, editorConfig.rowAt, hcy, hrow]

theorem editorMoveCursor_frame (E : editorConfig) (key : Int) :
    ∃ cx cy, editorMoveCursor E key = { E with cx := cx, cy := cy } := by
  obtain ⟨cx, cy, h⟩ := moveSwitch_frame E key
  rw [editorMoveCursor, snapCx_eq, h]
  exact ⟨_, _, rfl⟩

theorem moveSwitch_up (E : editorConfig) :
    moveSwitch E ARROW_UP = if E.cy ≠ 0 then { E with cy := E.cy - 1 } else E := by
  simp [moveSwitch, ARROW_UP, ARROW_LEFT, ARROW_RIGHT]

theorem moveSwitch_down (E : editorConfig) :
    moveSwitch E ARROW_DOWN = if E.cy < E.numrows then { E with cy := E.cy + 1 } else E := by
  simp [moveSwitch, ARROW_UP, ARROW_LEFT, ARROW_RIGHT, ARROW_DOWN]

/-- C11: for every row index `k` such that row `k+1` exists,
`editorMoveCursor(ARROW_RIGHT)` from `(cx = length of row k, cy = k)` yields
`(0, k+1)`, and from `(cx < length of row k, cy = k)` it yields `(cx + 1, k)`. -/
theorem editorMoveCursor_right (E : editorConfig) (k : Int)
    (_hk : 0 ≤ k) (hnext : k + 1 < E.numrows) (hcy : E.cy = k) :
    (E.cx = (E.rowAt k).size →
        (editorMoveCursor E ARROW_RIGHT).cx = 0 ∧ (editorMoveCursor E ARROW_RIGHT).cy = k + 1)
    ∧ (E.cx < (E.rowAt k).size →
        (editorMoveCursor E ARROW_RIGHT).cx = E.cx + 1
        ∧ (editorMoveCursor E ARROW_RIGHT).cy = k) := by
  have hrow : currentRow E = some (E.rowAt k) := by
    unfold currentRow
    rw [if_neg (by omega), hcy]
  have hsize : (0 : Int) ≤ (E.rowAt k).size := Int.ofNat_nonneg _
  refine ⟨fun hcx => ?_, fun hcx => ?_⟩
  · have hsw : moveSwitch E ARROW_RIGHT = { E with cy := E.cy + 1, cx := 0 } := by
      simp [moveSwitch, ARROW_LEFT, ARROW_RIGHT, hrow, hcx]
    have hlen := rowLen_nonneg { E with cy := E.cy + 1, cx := 0 }
    rw [editorMoveCursor, hsw, snapCx_eq, min_eq_left hlen, ← hcy]
    exact ⟨rfl, rfl⟩
  · have hsw : moveSwitch E ARROW_RIGHT = { E with cx := E.cx + 1 } := by
      simp [moveSwitch, ARROW_LEFT, ARROW_RIGHT, hrow, hcx]
    have hlen : rowLen { E with cx := E.cx + 1 } = (E.rowAt k).size := by
      rw [rowLen_congr { E with cx := E.cx + 1 } E rfl rfl, rowLen, hrow]
    rw [editorMoveCursor, hsw, snapCx_eq, hlen, min_eq_left (by show E.cx + 1 ≤ _; omega), ← hcy]
    exact ⟨rfl, rfl⟩

/-- Witness of C11 on the buffer `abc`, `d`, `ef`: from the end of row 0 the
cursor wraps to the start of row 1, and from column 1 of row 0 it steps to
column 2. -/
theorem editorMoveCursor_right_witness :
    ((editorMoveCursor
          ⟨3, 0, 0, 0, 0, 24, 80, [⟨[97, 98, 99], []⟩, ⟨[100], []⟩, ⟨[101, 102], []⟩], none, [], 0⟩
          ARROW_RIGHT).cx = 0
      ∧ (editorMoveCursor
          ⟨3, 0, 0, 0, 0, 24, 80, [⟨[97, 98, 99], []⟩, ⟨[100], []⟩, ⟨[101, 102], []⟩], none, [], 0⟩
          ARROW_RIGHT).cy = 0 + 1)
    ∧ ((editorMoveCursor
          ⟨1, 0, 0, 0, 0, 24, 80, [⟨[97, 98, 99], []⟩, ⟨[100], []⟩, ⟨[101, 102], []⟩], none, [], 0⟩
          ARROW_RIGHT).cx = 1 + 1
      ∧ (editorMoveCursor
          ⟨1, 0, 0, 0, 0, 24, 80, [⟨[97, 98, 99], []⟩, ⟨[100], []⟩, ⟨[101, 102], []⟩], none, [], 0⟩
          ARROW_RIGHT).cy = 0) :=
  ⟨(editorMoveCursor_right
      ⟨3, 0, 0, 0, 0, 24, 80, [⟨[97, 98, 99], []⟩, ⟨[100], []⟩, ⟨[101, 102], []⟩], none, [], 0⟩
      0 (by decide) (by decide) rfl).1 (by decide),
    (editorMoveCursor_right
      ⟨1, 0, 0, 0, 0, 24, 80, [⟨[97, 98, 99], []⟩, ⟨[100], []⟩, ⟨[101, 102], []⟩], none, [], 0⟩
      0 (by decide) (by decide) rfl).2 (by decide)⟩

/-- C12: for every in-bounds cursor and a vertical move (`ARROW_UP` or
`ARROW_DOWN`), `editorMoveCursor` moves `cy` by one row where the buffer allows
it and leaves `cx' = min(cx, L)`, with `L` the length of the row it lands on
(0 on the line past the last row). -/
theorem editorMoveCursor_vertical (E : editorConfig) (key : Int)
    (hkey : key = ARROW_UP ∨ key = ARROW_DOWN)
    (_hcy : 0 ≤ E.cy ∧ E.cy ≤ E.numrows) (_hcx : 0 ≤ E.cx ∧ E.cx ≤ rowLen E) :
    (editorMoveCursor E key).cx = min E.cx (rowLen (editorMoveCursor E key))
    ∧ (editorMoveCursor E key).cy
        = (if key = ARROW_UP then (if E.cy ≠ 0 then E.cy - 1 else E.cy)
           else (if E.cy < E.numrows then E.cy + 1 else E.cy))
    ∧ (editorMoveCursor E key).row = E.row := by
  have hsw : ∃ cy, moveSwitch E key = { E with cy := cy }
      ∧ cy = (if key = ARROW_UP then (if E.cy ≠ 0 then E.cy - 1 else E.cy)
              else (if E.cy < E.numrows then E.cy + 1 else E.cy)) := by
    rcases hkey with h | h
    · subst h
      rw [moveSwitch_up]
      by_cases hc : E.cy ≠ 0
      · exact ⟨E.cy - 1, by rw [if_pos hc], by rw [if_pos rfl, if_pos hc]⟩
      · exact ⟨E.cy, by rw [if_neg hc], by rw [if_pos rfl, if_neg hc]⟩
    · subst h
      have hne : ¬ (ARROW_DOWN = ARROW_UP) := by decide
      rw [moveSwitch_down]
      by_cases hc : E.cy < E.numrows
      · exact ⟨E.cy + 1, by rw [if_pos hc], by rw [if_neg hne, if_pos hc]⟩
      · exact ⟨E.cy, by rw [if_neg hc], by rw [if_neg hne, if_neg hc]⟩
  obtain ⟨cy, h, hcy'⟩ := hsw
  rw [editorMoveCursor, h, snapCx_eq, ← hcy']
  refine ⟨?_, rfl, rfl⟩
  show min E.cx _ = min E.cx _
  congr 1

/-- Witness of C12 on a 3-line buffer whose line 2 (`ab`) is shorter than line
1 (`abcde`): moving Down from the end of line 1 gives `cx = 2`, the length of
line 2. -/
theorem editorMoveCursor_vertical_witness :
    ((editorMoveCursor
          ⟨5, 0, 0, 0, 0, 24, 80,
            [⟨[97, 98, 99, 100, 101], []⟩, ⟨[97, 98], []⟩, ⟨[97, 98, 99], []⟩], none, [], 0⟩
          ARROW_DOWN).cx
        = min 5 (rowLen (editorMoveCursor
          ⟨5, 0, 0, 0, 0, 24, 80,
            [⟨[97, 98, 99, 100, 101], []⟩, ⟨[97, 98], []⟩, ⟨[97, 98, 99], []⟩], none, [], 0⟩
          ARROW_DOWN)))
    ∧ min 5 (rowLen (editorMoveCursor
          ⟨5, 0, 0, 0, 0, 24, 80,
            [⟨[97, 98, 99, 100, 101], []⟩, ⟨[97, 98], []⟩, ⟨[97, 98, 99], []⟩], none, [], 0⟩
          ARROW_DOWN)) = 2 :=
  ⟨(editorMoveCursor_vertical
      ⟨5, 0, 0, 0, 0, 24, 80,
        [⟨[97, 98, 99, 100, 101], []⟩, ⟨[97, 98], []⟩, ⟨[97, 98, 99], []⟩], none, [], 0⟩
      ARROW_DOWN (by decide) (by decide) (by decide)).1, by decide⟩

theorem snapCx_inBounds (E : editorConfig) (hcy : 0 ≤ E.cy ∧ E.cy ≤ E.numrows)
    (hcx : 0 ≤ E.cx) : cursorInBounds (snapCx E) := by
  have hlen := rowLen_nonneg E
  have hl : rowLen { E with cx := min E.cx (rowLen E) } = rowLen E := rowLen_congr _ _ rfl rfl
  rw [snapCx_eq]
  refine ⟨hcy.1, hcy.2, ?_, ?_⟩
  · exact le_min hcx hlen
  · rw [hl]
    exact min_le_right _ _

theorem moveSwitch_vertical_range (E : editorConfig) (key : Int)
    (hkey : key = ARROW_UP ∨ key = ARROW_DOWN)
    (hcy : 0 ≤ E.cy ∧ E.cy ≤ E.numrows) (hcx : 0 ≤ E.cx) :
    (0 ≤ (moveSwitch E key).cy ∧ (moveSwitch E key).cy ≤ (moveSwitch E key).numrows)
    ∧ 0 ≤ (moveSwitch E key).cx := by
  rcases hkey with h | h
  · subst h
    rw [moveSwitch_up]
    split_ifs with hc
    · refine ⟨⟨?_, ?_⟩, hcx⟩
      · show 0 ≤ E.cy - 1
        omega
      · show E.cy - 1 ≤ E.numrows
        omega
    · exact ⟨hcy, hcx⟩
  · subst h
    rw [moveSwitch_down]
    split_ifs with hc
    · refine ⟨⟨?_, ?_⟩, hcx⟩
      · show 0 ≤ E.cy + 1
        omega
      · show E.cy + 1 ≤ E.numrows
        omega
    · exact ⟨hcy, hcx⟩

theorem moveSwitch_horizontal_range (E : editorConfig) (key : Int)
    (hkey : key = ARROW_LEFT ∨ key = ARROW_RIGHT) (h : cursorInBounds E) :
    (0 ≤ (moveSwitch E key).cy ∧ (moveSwitch E key).cy ≤ (moveSwitch E key).numrows)
    ∧ 0 ≤ (moveSwitch E key).cx := by
  obtain ⟨h0, h1, h2, h3⟩ := h
  rcases hkey with hk | hk
  · subst hk
    simp only [moveSwitch, if_true]
    split_ifs with ha hb
    · refine ⟨⟨h0, h1⟩, ?_⟩
      show 0 ≤ E.cx - 1
      omega
    · refine ⟨⟨?_, ?_⟩, Int.ofNat_nonneg _⟩
      · show 0 ≤ E.cy - 1
        omega
      · show E.cy - 1 ≤ E.numrows
        omega
    · exact ⟨⟨h0, h1⟩, h2⟩
  · subst hk
    have hne : ¬ (ARROW_RIGHT = ARROW_LEFT) := by decide
    simp only [moveSwitch, hne, if_false, if_true]
    unfold currentRow
    split_ifs with ha
    · exact ⟨⟨h0, h1⟩, h2⟩
    · simp only []
      split_ifs with hb hc
      · refine ⟨⟨h0, h1⟩, ?_⟩
        show 0 ≤ E.cx + 1
        omega
      · refine ⟨⟨?_, ?_⟩, le_refl _⟩
        · show 0 ≤ E.cy + 1
          omega
        · show E.cy + 1 ≤ E.numrows
          omega
      · exact ⟨⟨h0, h1⟩, h2⟩

theorem editorMoveCursor_inBounds (E : editorConfig) (key : Int) (h : cursorInBounds E) :
    cursorInBounds (editorMoveCursor E key) := by
  unfold editorMoveCursor
  by_cases hv : key = ARROW_UP ∨ key = ARROW_DOWN
  · obtain ⟨a, b⟩ := moveSwitch_vertical_range E key hv ⟨h.1, h.2.1⟩ h.2.2.1
    exact snapCx_inBounds _ a b
  · by_cases hh : key = ARROW_LEFT ∨ key = ARROW_RIGHT
    · obtain ⟨a, b⟩ := moveSwitch_horizontal_range E key hh h
      exact snapCx_inBounds _ a b
    · have hsw : moveSwitch E key = E := by
        simp only [not_or] at hv hh
        simp [moveSwitch, hv.1, hv.2, hh.1, hh.2]
      rw [hsw]
      exact snapCx_inBounds _ ⟨h.1, h.2.1⟩ h.2.2.1

theorem repeatMove_inBounds (times : Nat) (E : editorConfig) (key : Int)
    (h : cursorInBounds E) : cursorInBounds (repeatMove times E key) := by
  induction times generalizing E with
  | zero => exact h
  | succ n ih => exact ih _ (editorMoveCursor_inBounds E key h)

theorem repeatMove_frame (times : Nat) (E : editorConfig) (key : Int) :
    ∃ cx cy, repeatMove times E key = { E with cx := cx, cy := cy } := by
  induction times generalizing E with
  | zero => exact ⟨_, _, rfl⟩
  | succ n ih =>
    obtain ⟨cx, cy, h⟩ := editorMoveCursor_frame E key
    obtain ⟨cx2, cy2, h2⟩ := ih (editorMoveCursor E key)
    rw [repeatMove, h2, h]
    exact ⟨_, _, rfl⟩

theorem pageStart_frame (E : editorConfig) (c : Int) :
    ∃ cy, pageStart E c = { E with cy := cy } := by
  unfold pageStart
  split_ifs <;> exact ⟨_, rfl⟩

theorem dispatchKey_frame (E : editorConfig) (c : Int) :
    ∃ cx cy, dispatchKey E c = { E with cx := cx, cy := cy } := by
  unfold dispatchKey
  split_ifs
  any_goals exact ⟨_, _, rfl⟩
  · obtain ⟨cy, h⟩ := pageStart_frame E c
    obtain ⟨cx2, cy2, h2⟩ := repeatMove_frame E.screenrows.toNat (pageStart E c) ARROW_UP
    rw [h2, h]
    exact ⟨_, _, rfl⟩
  · obtain ⟨cy, h⟩ := pageStart_frame E c
    obtain ⟨cx2, cy2, h2⟩ := repeatMove_frame E.screenrows.toNat (pageStart E c) ARROW_DOWN
    rw [h2, h]
    exact ⟨_, _, rfl⟩
  · exact editorMoveCursor_frame E c

theorem pageStart_range (E : editorConfig) (c : Int) (hrows : 1 ≤ E.screenrows)
    (hoff : 0 ≤ E.rowoff ∧ E.rowoff ≤ E.numrows) (hcy : 0 ≤ E.cy ∧ E.cy ≤ E.numrows)
    (hcx : 0 ≤ E.cx) :
    (0 ≤ (pageStart E c).cy ∧ (pageStart E c).cy ≤ (pageStart E c).numrows)
    ∧ 0 ≤ (pageStart E c).cx := by
  unfold pageStart
  by_cases h1 : c = PAGE_UP
  · rw [if_pos h1]
    exact ⟨hoff, hcx⟩
  · rw [if_neg h1]
    by_cases h2 : c = PAGE_DOWN
    · rw [if_pos h2]
      refine ⟨⟨?_, ?_⟩, hcx⟩
      · show 0 ≤ (if E.rowoff + E.screenrows - 1 > E.numrows then E.numrows
          else E.rowoff + E.screenrows - 1)
        split_ifs <;> omega
      · show (if E.rowoff + E.screenrows - 1 > E.numrows then E.numrows
          else E.rowoff + E.screenrows - 1) ≤ E.numrows
        split_ifs <;> omega
    · rw [if_neg h2]
      exact ⟨hcy, hcx⟩

theorem pageMoves_inBounds (E : editorConfig) (times : Nat) (key : Int)
    (hkey : key = ARROW_UP ∨ key = ARROW_DOWN) (htimes : 1 ≤ times)
    (hcy : 0 ≤ E.cy ∧ E.cy ≤ E.numrows) (hcx : 0 ≤ E.cx) :
    cursorInBounds (repeatMove times E key) := by
  obtain ⟨n, rfl⟩ : ∃ n, times = n + 1 := ⟨times - 1, by omega⟩
  rw [repeatMove]
  apply repeatMove_inBounds
  obtain ⟨a, b⟩ := moveSwitch_vertical_range E key hkey hcy hcx
  exact snapCx_inBounds _ a b

/-- C13: cursor bounds are an invariant of key dispatch.  For every state with
`screenrows >= 1`, `0 <= rowoff <= numrows` and a cursor within the buffer
bounds, and every key other than the quit key, `editorProcessKeypress` returns,
the buffer is unchanged, and the cursor is again within the bounds
(`0 <= cy <= numrows`, `0 <= cx <=` length of row `cy`); Down from a row of the
buffer moves to `cy + 1`, which can be `numrows`, and from `numrows` it stays. -/
theorem editorProcessKeypress_cursorInBounds (E : editorConfig) (c : Int)
    (hrows : 1 ≤ E.screenrows) (hoff : 0 ≤ E.rowoff ∧ E.rowoff ≤ E.numrows)
    (h : cursorInBounds E) (hquit : c ≠ CTRL_KEY 113) :
    editorProcessKeypress E c = some (dispatchKey E c)
    ∧ cursorInBounds (dispatchKey E c)
    ∧ (dispatchKey E c).row = E.row
    ∧ (dispatchKey E ARROW_DOWN).cy = (if E.cy < E.numrows then E.cy + 1 else E.cy) := by
  refine ⟨?_, ?_, ?_, ?_⟩
  · rw [editorProcessKeypress, if_neg hquit]
  · obtain ⟨h0, h1, h2, h3⟩ := h
    unfold dispatchKey
    by_cases ha : c = HOME_KEY
    · rw [if_pos ha]
      exact ⟨h0, h1, le_refl _, rowLen_nonneg _⟩
    rw [if_neg ha]
    by_cases hb : c = END_KEY
    · rw [if_pos hb]
      by_cases hc : E.cy < E.numrows
      · rw [if_pos hc]
        refine ⟨h0, h1, Int.ofNat_nonneg _, ?_⟩
        have hr : rowLen { E with cx := (E.rowAt E.cy).size } = (E.rowAt E.cy).size := by
          rw [rowLen_congr { E with cx := (E.rowAt E.cy).size } E rfl rfl, rowLen, currentRow,
            if_neg (by omega)]
        rw [hr]
      · rw [if_neg hc]
        exact ⟨h0, h1, h2, h3⟩
    rw [if_neg hb]
    by_cases hc : c = PAGE_UP ∨ c = PAGE_DOWN
    · rw [if_pos hc]
      have hp := pageStart_range E c hrows hoff ⟨h0, h1⟩ h2
      have ht : 1 ≤ E.screenrows.toNat := by omega
      refine pageMoves_inBounds _ _ _ ?_ ht hp.1 hp.2
      by_cases hu : c = PAGE_UP
      · rw [if_pos hu]
        exact Or.inl rfl
      · rw [if_neg hu]
        exact Or.inr rfl
    rw [if_neg hc]
    by_cases hd : c = ARROW_UP ∨ c = ARROW_DOWN ∨ c = ARROW_LEFT ∨ c = ARROW_RIGHT
    · rw [if_pos hd]
      exact editorMoveCursor_inBounds E c ⟨h0, h1, h2, h3⟩
    · rw [if_neg hd]
      exact ⟨h0, h1, h2, h3⟩
  · obtain ⟨cx, cy, hf⟩ := dispatchKey_frame E c
    rw [hf]
  · have hd : dispatchKey E ARROW_DOWN = editorMoveCursor E ARROW_DOWN := by
      simp [dispatchKey, ARROW_DOWN, HOME_KEY, END_KEY, PAGE_UP, PAGE_DOWN]
    rw [hd, editorMoveCursor, snapCx_eq, moveSwitch_down]
    split_ifs <;> rfl

theorem scrollUp_eq (E : editorConfig) :
    scrollUp E = { E with rowoff := if E.cy < E.rowoff then E.cy else E.rowoff } := by
  unfold scrollUp
  split_ifs <;> rfl

theorem scrollDown_eq (E : editorConfig) :
    scrollDown E = { E with rowoff := if E.cy ≥ E.rowoff + E.screenrows
      then E.cy - E.screenrows + 1 else E.rowoff } := by
  unfold scrollDown
  split_ifs <;> rfl

theorem scrollLeft_eq (E : editorConfig) :
    scrollLeft E = { E with coloff := if E.rx < E.coloff then E.rx else E.coloff } := by
  unfold scrollLeft
  split_ifs <;> rfl

theorem scrollRight_eq (E : editorConfig) :
    scrollRight E = { E with coloff := if E.rx ≥ E.coloff + E.screencols
      then E.rx - E.screencols + 1 else E.coloff } := by
  unfold scrollRight
  split_ifs <;> rfl

/-- The value `E.rx` that `editorScroll` computes. -/
theorem editorScroll_rx (E : editorConfig) :
    (editorScroll E).rx
      = (if E.cy < E.numrows then editorRowCxToRx (E.rowAt E.cy) E.cx else 0) := by
  rw [editorScroll, scrollRight_eq, scrollLeft_eq, scrollDown_eq, scrollUp_eq]
  rfl

/-- The value `E.rowoff` that `editorScroll` leaves. -/
theorem editorScroll_rowoff (E : editorConfig) :
    (editorScroll E).rowoff
      = (if E.cy ≥ (if E.cy < E.rowoff then E.cy else E.rowoff) + E.screenrows
         then E.cy - E.screenrows + 1
         else (if E.cy < E.rowoff then E.cy else E.rowoff)) := by
  rw [editorScroll, scrollRight_eq, scrollLeft_eq, scrollDown_eq, scrollUp_eq]
  rfl

/-- The value `E.coloff` that `editorScroll` leaves. -/
theorem editorScroll_coloff (E : editorConfig) :
    (editorScroll E).coloff
      = (if (editorScroll E).rx
            ≥ (if (editorScroll E).rx < E.coloff then (editorScroll E).rx else E.coloff)
              + E.screencols
         then (editorScroll E).rx - E.screencols + 1
         else (if (editorScroll E).rx < E.coloff then (editorScroll E).rx else E.coloff)) := by
  rw [editorScroll, scrollRight_eq, scrollLeft_eq, scrollDown_eq, scrollUp_eq]
  rfl

/-- What `editorScroll` leaves alone. -/
theorem editorScroll_frame (E : editorConfig) :
    ∃ rx rowoff coloff,
      editorScroll E = { E with rx := rx, rowoff := rowoff, coloff := coloff } := by
  rw [editorScroll, scrollRight_eq, scrollLeft_eq, scrollDown_eq, scrollUp_eq]
  exact ⟨_, _, _, rfl⟩

theorem editorMoveCursor_down_cy (E : editorConfig) :
    (editorMoveCursor E ARROW_DOWN).cy = (if E.cy < E.numrows then E.cy + 1 else E.cy) := by
  rw [editorMoveCursor, snapCx_eq, moveSwitch_down]
  split_ifs <;> rfl

theorem editorMoveCursor_up_cy (E : editorConfig) :
    (editorMoveCursor E ARROW_UP).cy = (if E.cy ≠ 0 then E.cy - 1 else E.cy) := by
  rw [editorMoveCursor, snapCx_eq, moveSwitch_up]
  split_ifs <;> rfl

theorem editorMoveCursor_numrows (E : editorConfig) (key : Int) :
    (editorMoveCursor E key).numrows = E.numrows := by
  obtain ⟨cx, cy, h⟩ := editorMoveCursor_frame E key
  rw [h]
  rfl

theorem repeatMove_down_cy (times : Nat) (E : editorConfig) (hcy : E.cy ≤ E.numrows) :
    (repeatMove times E ARROW_DOWN).cy = min (E.cy + times) E.numrows := by
  induction times generalizing E with
  | zero => simp [repeatMove, hcy]
  | succ n ih =>
    have hn := editorMoveCursor_numrows E ARROW_DOWN
    have hc := editorMoveCursor_down_cy E
    rw [repeatMove, ih _ (by rw [hn, hc]; split_ifs <;> omega), hn, hc]
    push_cast
    split_ifs <;> omega

theorem repeatMove_up_cy (times : Nat) (E : editorConfig) (hcy : 0 ≤ E.cy) :
    (repeatMove times E ARROW_UP).cy = max (E.cy - times) 0 := by
  induction times generalizing E with
  | zero => simp [repeatMove, hcy]
  | succ n ih =>
    have hc := editorMoveCursor_up_cy E
    rw [repeatMove, ih _ (by rw [hc]; split_ifs <;> omega), hc]
    push_cast
    split_ifs <;> omega

theorem dispatchKey_pageDown (E : editorConfig) :
    dispatchKey E PAGE_DOWN
      = repeatMove E.screenrows.toNat (pageStart E PAGE_DOWN) ARROW_DOWN := by
  have h1 : ¬ (PAGE_DOWN = HOME_KEY) := by decide
  have h2 : ¬ (PAGE_DOWN = END_KEY) := by decide
  have h3 : ¬ (PAGE_DOWN = PAGE_UP) := by decide
  rw [dispatchKey, if_neg h1, if_neg h2, if_pos (Or.inr rfl), if_neg h3]

theorem dispatchKey_pageUp (E : editorConfig) :
    dispatchKey E PAGE_UP
      = repeatMove E.screenrows.toNat (pageStart E PAGE_UP) ARROW_UP := by
  have h1 : ¬ (PAGE_UP = HOME_KEY) := by decide
  have h2 : ¬ (PAGE_UP = END_KEY) := by decide
  rw [dispatchKey, if_neg h1, if_neg h2, if_pos (Or.inl rfl), if_pos rfl]

theorem pageStart_pageDown (E : editorConfig) :
    pageStart E PAGE_DOWN
      = { E with cy := if E.rowoff + E.screenrows - 1 > E.numrows then E.numrows
                       else E.rowoff + E.screenrows - 1 } := by
  have h3 : ¬ (PAGE_DOWN = PAGE_UP) := by decide
  rw [pageStart, if_neg h3, if_pos rfl]

theorem pageStart_pageUp (E : editorConfig) :
    pageStart E PAGE_UP = { E with cy := E.rowoff } := by
  rw [pageStart, if_pos rfl]

/-- The row that `PAGE_DOWN` leaves the cursor on. -/
theorem dispatchKey_pageDown_cy (E : editorConfig) (hrows : 0 ≤ E.screenrows) :
    (dispatchKey E PAGE_DOWN).cy
      = min (min (E.rowoff + E.screenrows - 1) E.numrows + E.screenrows) E.numrows := by
  rw [dispatchKey_pageDown, pageStart_pageDown, repeatMove_down_cy]
  · have e : ((E.screenrows.toNat : Nat) : Int) = E.screenrows := Int.toNat_of_nonneg hrows
    show min ((if E.rowoff + E.screenrows - 1 > E.numrows then E.numrows
      else E.rowoff + E.screenrows - 1) + (E.screenrows.toNat : Int)) E.numrows = _
    rw [e]
    split_ifs <;> omega
  · show (if E.rowoff + E.screenrows - 1 > E.numrows then E.numrows
      else E.rowoff + E.screenrows - 1) ≤ E.numrows
    split_ifs <;> omega

/-- The row that `PAGE_UP` leaves the cursor on. -/
theorem dispatchKey_pageUp_cy (E : editorConfig) (hrows : 0 ≤ E.screenrows)
    (hoff : 0 ≤ E.rowoff) :
    (dispatchKey E PAGE_UP).cy = max (E.rowoff - E.screenrows) 0 := by
  rw [dispatchKey_pageUp, pageStart_pageUp, repeatMove_up_cy _ _ hoff]
  have e : ((E.screenrows.toNat : Nat) : Int) = E.screenrows := Int.toNat_of_nonneg hrows
  show max (E.rowoff - (E.screenrows.toNat : Int)) 0 = _
  rw [e]

/-- The offset after one `PAGE_DOWN` and the viewport recompute. -/
theorem pageDownThenScroll_rowoff (E : editorConfig) (hrows : 1 ≤ E.screenrows)
    (hoff : E.rowoff ≤ E.numrows) :
    (pageDownThenScroll E).rowoff
      = (if E.rowoff + E.screenrows ≤ E.numrows
         then min (E.rowoff + E.screenrows) (E.numrows - E.screenrows + 1)
         else E.rowoff) := by
  have hcy := dispatchKey_pageDown_cy E (by omega)
  obtain ⟨cx, cy, hf⟩ := dispatchKey_frame E PAGE_DOWN
  have hro : (dispatchKey E PAGE_DOWN).rowoff = E.rowoff := by rw [hf]
  have hsr : (dispatchKey E PAGE_DOWN).screenrows = E.screenrows := by rw [hf]
  rw [pageDownThenScroll, editorScroll_rowoff, hro, hsr, hcy]
  split_ifs <;> omega

theorem pageDownThenScroll_frame (E : editorConfig) :
    (pageDownThenScroll E).screenrows = E.screenrows
    ∧ (pageDownThenScroll E).row = E.row := by
  obtain ⟨cx, cy, hf⟩ := dispatchKey_frame E PAGE_DOWN
  obtain ⟨rx, ro, co, hs⟩ := editorScroll_frame (dispatchKey E PAGE_DOWN)
  rw [pageDownThenScroll, hs, hf]
  exact ⟨rfl, rfl⟩

theorem pageDownThenScroll_iterate_frame (n : Nat) (E : editorConfig) :
    (pageDownThenScroll^[n] E).screenrows = E.screenrows
    ∧ (pageDownThenScroll^[n] E).numrows = E.numrows := by
  induction n with
  | zero => exact ⟨rfl, rfl⟩
  | succ k ih =>
    rw [Function.iterate_succ_apply']
    obtain ⟨a, b⟩ := pageDownThenScroll_frame (pageDownThenScroll^[k] E)
    refine ⟨a.trans ih.1, ?_⟩
    rw [editorConfig.numrows, b]
    exact ih.2

/-- Witness of C13: `PAGE_DOWN` in a 2-row window on the buffer `abc`, `d`,
`ef`, cursor at the end of row 0. -/
theorem editorProcessKeypress_cursorInBounds_witness :
    editorProcessKeypress
        ⟨3, 0, 0, 0, 0, 2, 80, [⟨[97, 98, 99], []⟩, ⟨[100], []⟩, ⟨[101, 102], []⟩], none, [], 0⟩
        PAGE_DOWN
      = some (dispatchKey
        ⟨3, 0, 0, 0, 0, 2, 80, [⟨[97, 98, 99], []⟩, ⟨[100], []⟩, ⟨[101, 102], []⟩], none, [], 0⟩
        PAGE_DOWN)
    ∧ cursorInBounds (dispatchKey
        ⟨3, 0, 0, 0, 0, 2, 80, [⟨[97, 98, 99], []⟩, ⟨[100], []⟩, ⟨[101, 102], []⟩], none, [], 0⟩
        PAGE_DOWN)
    ∧ (dispatchKey
        ⟨3, 0, 0, 0, 0, 2, 80, [⟨[97, 98, 99], []⟩, ⟨[100], []⟩, ⟨[101, 102], []⟩], none, [], 0⟩
        PAGE_DOWN).cy = 3 :=
  ⟨(editorProcessKeypress_cursorInBounds
      ⟨3, 0, 0, 0, 0, 2, 80, [⟨[97, 98, 99], []⟩, ⟨[100], []⟩, ⟨[101, 102], []⟩], none, [], 0⟩
      PAGE_DOWN (by decide) (by decide) (by decide) (by decide)).1,
    (editorProcessKeypress_cursorInBounds
      ⟨3, 0, 0, 0, 0, 2, 80, [⟨[97, 98, 99], []⟩, ⟨[100], []⟩, ⟨[101, 102], []⟩], none, [], 0⟩
      PAGE_DOWN (by decide) (by decide) (by decide) (by decide)).2.1,
    by decide⟩

/-! ## paging -/

theorem pageDownThenScroll_iterate_range (n : Nat) (E : editorConfig)
    (hrows : 1 ≤ E.screenrows) (hoff : 0 ≤ E.rowoff ∧ E.rowoff ≤ E.numrows) :
    0 ≤ (pageDownThenScroll^[n] E).rowoff
    ∧ (pageDownThenScroll^[n] E).rowoff ≤ E.numrows := by
  induction n with
  | zero => exact hoff
  | succ k ih =>
    obtain ⟨hs, hn⟩ := pageDownThenScroll_iterate_frame k E
    rw [Function.iterate_succ_apply',
      pageDownThenScroll_rowoff _ (by rw [hs]; exact hrows) (by rw [hn]; exact ih.2), hs, hn]
    split_ifs <;> omega

theorem pageDownThenScroll_iterate_step (n : Nat) (E : editorConfig)
    (hrows : 1 ≤ E.screenrows) (hoff : 0 ≤ E.rowoff ∧ E.rowoff ≤ E.numrows) :
    (pageDownThenScroll^[n + 1] E).rowoff
      = (if (pageDownThenScroll^[n] E).rowoff + E.screenrows ≤ E.numrows
         then min ((pageDownThenScroll^[n] E).rowoff + E.screenrows)
           (E.numrows - E.screenrows + 1)
         else (pageDownThenScroll^[n] E).rowoff) := by
  obtain ⟨hs, hn⟩ := pageDownThenScroll_iterate_frame n E
  have hr := pageDownThenScroll_iterate_range n E hrows hoff
  rw [Function.iterate_succ_apply',
    pageDownThenScroll_rowoff _ (by rw [hs]; exact hrows) (by rw [hn]; exact hr.2), hs, hn]

set_option maxRecDepth 100000 in
/-- C14, as the code behaves: in a 24-row window on a 100-row buffer, from
`cy = 0`, `rowoff = 0`, the first `PAGE_DOWN` followed by `editorScroll` moves
`rowoff` to 24, not to `screenrows - 1 = 23`; and the press made at
`rowoff = 72`, where `rowoff + screenrows < numrows` still holds, advances it
by 5 only. -/
theorem pageDown_advance_counterexample :
    ¬ ((editorConfig.mk 0 0 0 0 0 24 80 (List.replicate 100 ⟨[], []⟩) none [] 0).rowoff + 24 < 100 →
        (pageDownThenScroll ⟨0, 0, 0, 0, 0, 24, 80, List.replicate 100 ⟨[], []⟩, none, [], 0⟩).rowoff
          = 0 + (24 - 1))
    ∧ (pageDownThenScroll ⟨0, 0, 0, 0, 0, 24, 80, List.replicate 100 ⟨[], []⟩, none, [], 0⟩).rowoff
        = 24
    ∧ (pageDownThenScroll^[3]
        ⟨0, 0, 0, 0, 0, 24, 80, List.replicate 100 ⟨[], []⟩, none, [], 0⟩).rowoff = 72
    ∧ (pageDownThenScroll^[4]
        ⟨0, 0, 0, 0, 0, 24, 80, List.replicate 100 ⟨[], []⟩, none, [], 0⟩).rowoff = 77 := by
  decide

/-- C14 (amended): starting from `cy = 0`, `rowoff = 0` with `screenrows >= 1`,
each `PAGE_DOWN` followed by `editorScroll` advances `rowoff` by exactly
`screenrows`, for every press made while `rowoff + 2 * screenrows - 1 <=
numrows`; in general a press made while `rowoff + screenrows <= numrows` moves
`rowoff` to `min(rowoff + screenrows, numrows - screenrows + 1)`, and a later
press leaves it alone. -/
theorem pageDown_advances_rowoff (E : editorConfig) (n : Nat)
    (hrows : 1 ≤ E.screenrows) (hstart : E.cy = 0 ∧ E.rowoff = 0) :
    ((pageDownThenScroll^[n] E).rowoff + 2 * E.screenrows - 1 ≤ E.numrows →
        (pageDownThenScroll^[n + 1] E).rowoff
          = (pageDownThenScroll^[n] E).rowoff + E.screenrows)
    ∧ (pageDownThenScroll^[n + 1] E).rowoff
        = (if (pageDownThenScroll^[n] E).rowoff + E.screenrows ≤ E.numrows
           then min ((pageDownThenScroll^[n] E).rowoff + E.screenrows)
             (E.numrows - E.screenrows + 1)
           else (pageDownThenScroll^[n] E).rowoff) := by
  have hoff : 0 ≤ E.rowoff ∧ E.rowoff ≤ E.numrows := by
    rw [hstart.2]
    exact ⟨le_refl _, Int.ofNat_nonneg _⟩
  have hstep := pageDownThenScroll_iterate_step n E hrows hoff
  refine ⟨fun hroom => ?_, hstep⟩
  rw [hstep]
  split_ifs <;> omega

set_option maxRecDepth 100000 in
/-- Witness of C14 (amended): the first press in a 24-row window on a 100-row
buffer. -/
theorem pageDown_advances_rowoff_witness :
    (pageDownThenScroll^[0 + 1]
        ⟨0, 0, 0, 0, 0, 24, 80, List.replicate 100 ⟨[], []⟩, none, [], 0⟩).rowoff
      = (pageDownThenScroll^[0]
        ⟨0, 0, 0, 0, 0, 24, 80, List.replicate 100 ⟨[], []⟩, none, [], 0⟩).rowoff + 24 :=
  (pageDown_advances_rowoff ⟨0, 0, 0, 0, 0, 24, 80, List.replicate 100 ⟨[], []⟩, none, [], 0⟩ 0
    (by decide) (by decide)).1 (by decide)

set_option maxRecDepth 100000 in
/-- C15, as the code behaves: in a 24-row window on a 100-row buffer, from
`cy = 0`, `rowoff = 0`, four `PAGE_DOWN` presses each followed by
`editorScroll` leave `rowoff = 77`, above `numrows - screenrows = 76`; and in a
25-row window the press made at `rowoff = 75 = numrows - screenrows` still
moves `rowoff`, to 76. -/
theorem pageDown_bound_counterexample :
    ¬ ((pageDownThenScroll^[4]
        ⟨0, 0, 0, 0, 0, 24, 80, List.replicate 100 ⟨[], []⟩, none, [], 0⟩).rowoff ≤ 100 - 24)
    ∧ (pageDownThenScroll^[4]
        ⟨0, 0, 0, 0, 0, 24, 80, List.replicate 100 ⟨[], []⟩, none, [], 0⟩).rowoff = 77
    ∧ (pageDownThenScroll^[3]
        ⟨0, 0, 0, 0, 0, 25, 80, List.replicate 100 ⟨[], []⟩, none, [], 0⟩).rowoff = 75
    ∧ (pageDownThenScroll^[4]
        ⟨0, 0, 0, 0, 0, 25, 80, List.replicate 100 ⟨[], []⟩, none, [], 0⟩).rowoff = 76 := by
  decide

/-- C15 (amended): with `numrows > screenrows >= 1`, from `cy = 0`,
`rowoff = 0`, after any number of `PAGE_DOWN` presses each followed by
`editorScroll`, `rowoff` is at least 0 and never exceeds
`numrows - screenrows + 1`; and once `rowoff + screenrows > numrows`, `rowoff`
equals `numrows - screenrows + 1` and every further press leaves it there. -/
theorem pageDown_rowoff_bounded (E : editorConfig) (n : Nat)
    (hrows : 1 ≤ E.screenrows) (hbig : E.screenrows < E.numrows)
    (hstart : E.cy = 0 ∧ E.rowoff = 0) :
    0 ≤ (pageDownThenScroll^[n] E).rowoff
    ∧ (pageDownThenScroll^[n] E).rowoff ≤ E.numrows - E.screenrows + 1
    ∧ ((pageDownThenScroll^[n] E).rowoff + E.screenrows > E.numrows →
        ∀ m, n ≤ m → (pageDownThenScroll^[m] E).rowoff = E.numrows - E.screenrows + 1) := by
  have hoff : 0 ≤ E.rowoff ∧ E.rowoff ≤ E.numrows := by
    rw [hstart.2]
    exact ⟨le_refl _, Int.ofNat_nonneg _⟩
  have hstep := fun k => pageDownThenScroll_iterate_step k E hrows hoff
  have hinv : ∀ k, 0 ≤ (pageDownThenScroll^[k] E).rowoff
      ∧ (pageDownThenScroll^[k] E).rowoff ≤ E.numrows - E.screenrows + 1 := by
    intro k
    induction k with
    | zero =>
      show 0 ≤ E.rowoff ∧ E.rowoff ≤ _
      rw [hstart.2]
      omega
    | succ j ih =>
      rw [hstep j]
      split_ifs <;> omega
  refine ⟨(hinv n).1, (hinv n).2, fun hpast m hm => ?_⟩
  induction m, hm using Nat.le_induction with
  | base =>
    have := hinv n
    omega
  | succ j _ ih =>
    rw [hstep j, ih]
    split_ifs <;> omega

set_option maxRecDepth 100000 in
/-- Witness of C15 (amended): after four presses in a 24-row window on a
100-row buffer `rowoff` is 77 and stays there. -/
theorem pageDown_rowoff_bounded_witness :
    (pageDownThenScroll^[4]
        ⟨0, 0, 0, 0, 0, 24, 80, List.replicate 100 ⟨[], []⟩, none, [], 0⟩).rowoff
      ≤ (editorConfig.mk 0 0 0 0 0 24 80 (List.replicate 100 ⟨[], []⟩) none [] 0).numrows
        - 24 + 1
    ∧ (pageDownThenScroll^[9]
        ⟨0, 0, 0, 0, 0, 24, 80, List.replicate 100 ⟨[], []⟩, none, [], 0⟩).rowoff
      = (editorConfig.mk 0 0 0 0 0 24 80 (List.replicate 100 ⟨[], []⟩) none [] 0).numrows
        - 24 + 1 :=
  ⟨(pageDown_rowoff_bounded ⟨0, 0, 0, 0, 0, 24, 80, List.replicate 100 ⟨[], []⟩, none, [], 0⟩ 4
      (by decide) (by decide) (by decide)).2.1,
    (pageDown_rowoff_bounded ⟨0, 0, 0, 0, 0, 24, 80, List.replicate 100 ⟨[], []⟩, none, [], 0⟩ 4
      (by decide) (by decide) (by decide)).2.2 (by decide) 9 (by decide)⟩

/-! ## Home, End and the keys without an action -/

/-- C16: dispatching `HOME_KEY` sets `cx = 0` and changes nothing else;
dispatching `END_KEY` sets `cx` to the length of row `cy` when `cy < numrows`
and leaves the whole state unchanged when `cy >= numrows`; in both cases `cy`,
`rowoff`, `coloff` and the buffer are unchanged. -/
theorem dispatchKey_home_end (E : editorConfig) :
    editorProcessKeypress E HOME_KEY = some { E with cx := 0 }
    ∧ editorProcessKeypress E END_KEY
        = some (if E.cy < E.numrows then { E with cx := (E.rowAt E.cy).size } else E)
    ∧ (dispatchKey E HOME_KEY).cy = E.cy ∧ (dispatchKey E HOME_KEY).rowoff = E.rowoff
    ∧ (dispatchKey E HOME_KEY).coloff = E.coloff ∧ (dispatchKey E HOME_KEY).row = E.row
    ∧ (dispatchKey E END_KEY).cy = E.cy ∧ (dispatchKey E END_KEY).rowoff = E.rowoff
    ∧ (dispatchKey E END_KEY).coloff = E.coloff ∧ (dispatchKey E END_KEY).row = E.row := by
  have hq1 : ¬ (HOME_KEY = CTRL_KEY 113) := by decide
  have hq2 : ¬ (END_KEY = CTRL_KEY 113) := by decide
  have hne : ¬ (END_KEY = HOME_KEY) := by decide
  have hh : dispatchKey E HOME_KEY = { E with cx := 0 } := by
    rw [dispatchKey, if_pos rfl]
  have he : dispatchKey E END_KEY
      = (if E.cy < E.numrows then { E with cx := (E.rowAt E.cy).size } else E) := by
    rw [dispatchKey, if_neg hne, if_pos rfl]
  refine ⟨?_, ?_, ?_, ?_, ?_, ?_, ?_, ?_, ?_, ?_⟩
  · rw [editorProcessKeypress, if_neg hq1, hh]
  · rw [editorProcessKeypress, if_neg hq2, he]
  all_goals first
    | (rw [hh])
    | (rw [he]; split_ifs <;> rfl)

/-- C17: for every key code that is not the quit key, Home, End, PageUp,
PageDown or an arrow, `editorProcessKeypress` returns and leaves the entire
editor state unchanged. -/
theorem editorProcessKeypress_other_keys (E : editorConfig) (c : Int)
    (hquit : c ≠ CTRL_KEY 113) (hhome : c ≠ HOME_KEY) (hend : c ≠ END_KEY)
    (hpage : c ≠ PAGE_UP ∧ c ≠ PAGE_DOWN)
    (harrow : c ≠ ARROW_UP ∧ c ≠ ARROW_DOWN ∧ c ≠ ARROW_LEFT ∧ c ≠ ARROW_RIGHT) :
    editorProcessKeypress E c = some E := by
  have h3 : ¬ (c = PAGE_UP ∨ c = PAGE_DOWN) := by
    rintro (h | h)
    · exact hpage.1 h
    · exact hpage.2 h
  have h4 : ¬ (c = ARROW_UP ∨ c = ARROW_DOWN ∨ c = ARROW_LEFT ∨ c = ARROW_RIGHT) := by
    rintro (h | h | h | h)
    · exact harrow.1 h
    · exact harrow.2.1 h
    · exact harrow.2.2.1 h
    · exact harrow.2.2.2 h
  rw [editorProcessKeypress, if_neg hquit, dispatchKey, if_neg hhome, if_neg hend, if_neg h3,
    if_neg h4]

/-- Witness of C17: Delete, plain Escape and the letter `a` leave the state
alone. -/
theorem editorProcessKeypress_other_keys_witness :
    editorProcessKeypress ⟨1, 0, 0, 0, 0, 24, 80, [⟨[97, 98], []⟩], none, [], 0⟩ DEL_KEY
      = some ⟨1, 0, 0, 0, 0, 24, 80, [⟨[97, 98], []⟩], none, [], 0⟩
    ∧ editorProcessKeypress ⟨1, 0, 0, 0, 0, 24, 80, [⟨[97, 98], []⟩], none, [], 0⟩ ESC
      = some ⟨1, 0, 0, 0, 0, 24, 80, [⟨[97, 98], []⟩], none, [], 0⟩
    ∧ editorProcessKeypress ⟨1, 0, 0, 0, 0, 24, 80, [⟨[97, 98], []⟩], none, [], 0⟩ 97
      = some ⟨1, 0, 0, 0, 0, 24, 80, [⟨[97, 98], []⟩], none, [], 0⟩ :=
  ⟨editorProcessKeypress_other_keys _ DEL_KEY (by decide) (by decide) (by decide) (by decide)
      (by decide),
    editorProcessKeypress_other_keys _ ESC (by decide) (by decide) (by decide) (by decide)
      (by decide),
    editorProcessKeypress_other_keys _ 97 (by decide) (by decide) (by decide) (by decide)
      (by decide)⟩

/-! ## appending rows -/

/-- C18: for every buffer and every byte sequence `s` of length `len`,
`editorAppendRow(s, len)` increases `numrows` by exactly 1, keeps every
previous row (raw and rendered) in place, and makes the new last row hold `s`
unchanged (`size = len`) with `render` equal to the tab expansion of `s`. -/
theorem editorAppendRow_appends (E : editorConfig) (s : List Nat) (len : Nat)
    (hlen : s.length = len) :
    (editorAppendRow E s len).numrows = E.numrows + 1
    ∧ (editorAppendRow E s len).row = E.row ++ [⟨s, tabWalk [] s⟩]
    ∧ (editorAppendRow E s len).row.take E.row.length = E.row
    ∧ (editorAppendRow E s len).row.getLast? = some ⟨s, tabWalk [] s⟩
    ∧ (erow.mk s (tabWalk [] s)).size = len := by
  have hrow : (editorAppendRow E s len).row = E.row ++ [⟨s, tabWalk [] s⟩] := by
    show E.row ++ [editorUpdateRow ⟨s.take len, []⟩] = _
    rw [← hlen, List.take_length, editorUpdateRow, renderLoop_eq_tabWalk]
  refine ⟨?_, hrow, ?_, ?_, ?_⟩
  · rw [editorConfig.numrows, hrow, List.length_append, List.length_singleton]
    push_cast
    rfl
  · rw [hrow, List.take_left']
    rfl
  · rw [hrow, List.getLast?_append, List.getLast?_singleton]
    rfl
  · rw [erow.size, hlen]

/-- Witness of C18: appending `a TAB b` to a one-row buffer. -/
theorem editorAppendRow_appends_witness :
    (editorAppendRow ⟨0, 0, 0, 0, 0, 24, 80, [⟨[120], [120]⟩], none, [], 0⟩ [97, 9, 98] 3).row
      = [⟨[120], [120]⟩] ++ [⟨[97, 9, 98], tabWalk [] [97, 9, 98]⟩]
    ∧ tabWalk [] [97, 9, 98] = [97, 32, 32, 32, 32, 32, 32, 32, 98] :=
  ⟨(editorAppendRow_appends ⟨0, 0, 0, 0, 0, 24, 80, [⟨[120], [120]⟩], none, [], 0⟩ [97, 9, 98] 3
      (by decide)).2.1, by decide⟩

/-! ## message bar -/

theorem editorDrawMessageBar_eq (E : editorConfig) (now : Int) (ab : List Nat)
    (hcols : 0 ≤ E.screencols) :
    editorDrawMessageBar E now ab
      = ab ++ [27, 91, 75]
        ++ (if E.statusmsg ≠ [] ∧ now - E.statusmsg_time < 5
            then E.statusmsg.take E.screencols.toNat else []) := by
  unfold editorDrawMessageBar abAppend
  have h3 : List.take (3 : Int).toNat [27, 91, 75] = [27, 91, 75] := rfl
  simp only [h3]
  by_cases hfresh : now - E.statusmsg_time < 5
  · by_cases hlong : (E.statusmsg.length : Int) > E.screencols
    · have hne : E.statusmsg ≠ [] := by
        intro h
        rw [h] at hlong
        simp at hlong
        omega
      simp only [hlong, if_true, hfresh, and_true, hne, ne_eq, not_false_eq_true]
      by_cases hz : E.screencols = 0
      · simp [hz]
      · simp [hz]
    · simp only [hlong, if_false, hfresh, and_true]
      by_cases hne : E.statusmsg = []
      · simp [hne]
      · have hlen : (E.statusmsg.length : Int) ≠ 0 := by
          intro h
          exact hne (List.length_eq_zero.mp (by exact_mod_cast h))
        simp only [hlen, ne_eq, not_false_eq_true, if_true, hne, Int.toNat_ofNat]
        rw [List.take_length, List.take_of_length_le (by omega)]
  · simp [hfresh]

/-- C19: with the clock as an explicit input and `screencols >= 0`,
`editorDrawMessageBar` appends, after the erase-line code, the status message
truncated to `screencols` bytes if the message is non-empty and
`now - statusmsg_time < 5`, and nothing otherwise; with `screencols >= 1` the
frame gets message bytes exactly in that case.  A message set at time `T` is in
the frame rendered at `T + 4` and not in the frame rendered at `T + 6`. -/
theorem editorDrawMessageBar_expiry (E : editorConfig) (now T : Int) (ab text : List Nat)
    (hcols : 0 ≤ E.screencols) :
    editorDrawMessageBar E now ab
        = ab ++ [27, 91, 75]
          ++ (if E.statusmsg ≠ [] ∧ now - E.statusmsg_time < 5
              then E.statusmsg.take E.screencols.toNat else [])
    ∧ ((E.statusmsg.take E.screencols.toNat).length : Int) ≤ E.screencols
    ∧ (1 ≤ E.screencols →
        (editorDrawMessageBar E now ab ≠ ab ++ [27, 91, 75]
          ↔ E.statusmsg ≠ [] ∧ now - E.statusmsg_time < 5))
    ∧ editorDrawMessageBar (editorSetStatusMessage E text T) (T + 4) ab
        = ab ++ [27, 91, 75]
          ++ (editorSetStatusMessage E text T).statusmsg.take E.screencols.toNat
    ∧ editorDrawMessageBar (editorSetStatusMessage E text T) (T + 6) ab
        = ab ++ [27, 91, 75] := by
  refine ⟨editorDrawMessageBar_eq E now ab hcols, ?_, ?_, ?_, ?_⟩
  · rw [List.length_take]
    omega
  · intro h1
    rw [editorDrawMessageBar_eq E now ab hcols]
    by_cases hc : E.statusmsg ≠ [] ∧ now - E.statusmsg_time < 5
    · rw [if_pos hc]
      refine ⟨fun _ => hc, fun _ => ?_⟩
      obtain ⟨b, bs, hb⟩ := List.exists_cons_of_ne_nil hc.1
      obtain ⟨k, hk⟩ : ∃ k, E.screencols.toNat = k + 1 := ⟨E.screencols.toNat - 1, by omega⟩
      rw [hb, hk, List.take_succ_cons]
      simp
    · rw [if_neg hc]
      simp [hc]
  · rw [editorDrawMessageBar_eq _ _ _ (show 0 ≤ (editorSetStatusMessage E text T).screencols
      from hcols)]
    show _ ++ (if _ ∧ T + 4 - T < 5 then _ else _) = _
    by_cases hne : (editorSetStatusMessage E text T).statusmsg = []
    · simp [hne]
    · rw [if_pos ⟨hne, by omega⟩]
      rfl
  · rw [editorDrawMessageBar_eq _ _ _ (show 0 ≤ (editorSetStatusMessage E text T).screencols
      from hcols)]
    show _ ++ (if _ ∧ T + 6 - T < 5 then _ else _) = _
    rw [if_neg (by omega)]
    simp

/-- Witness of C19: the help message set at time 100 in an 8-column window is
drawn, truncated to 8 bytes, at time 104, and not drawn at time 106. -/
theorem editorDrawMessageBar_expiry_witness :
    editorDrawMessageBar
        (editorSetStatusMessage ⟨0, 0, 0, 0, 0, 24, 8, [], none, [], 0⟩
          [72, 69, 76, 80, 58, 32, 67, 116, 114, 108, 45, 81] 100) (100 + 4) []
      = [] ++ [27, 91, 75] ++ [72, 69, 76, 80, 58, 32, 67, 116]
    ∧ editorDrawMessageBar
        (editorSetStatusMessage ⟨0, 0, 0, 0, 0, 24, 8, [], none, [], 0⟩
          [72, 69, 76, 80, 58, 32, 67, 116, 114, 108, 45, 81] 100) (100 + 6) []
      = [] ++ [27, 91, 75] :=
  ⟨(editorDrawMessageBar_expiry ⟨0, 0, 0, 0, 0, 24, 8, [], none, [], 0⟩ 0 100 []
      [72, 69, 76, 80, 58, 32, 67, 116, 114, 108, 45, 81] (by decide)).2.2.2.1,
    (editorDrawMessageBar_expiry ⟨0, 0, 0, 0, 0, 24, 8, [], none, [], 0⟩ 0 100 []
      [72, 69, 76, 80, 58, 32, 67, 116, 114, 108, 45, 81] (by decide)).2.2.2.2⟩

/-! ## what the viewport recompute depends on -/

/-- C20, as the code behaves: two states with the same buffer, cursor and
window size, which differ only in the previous `rowoff` (0 and 3) or only in
the previous `coloff` (0 and 2), keep their different offsets through
`editorScroll` when the cursor is already visible. -/
theorem editorScroll_offsets_counterexample :
    ¬ (∀ E F : editorConfig, E.row = F.row → E.cx = F.cx → E.cy = F.cy →
        E.screenrows = F.screenrows → E.screencols = F.screencols →
        (editorScroll E).rowoff = (editorScroll F).rowoff
        ∧ (editorScroll E).coloff = (editorScroll F).coloff)
    ∧ (editorScroll ⟨4, 5, 0, 0, 0, 24, 80, List.replicate 10 ⟨[97, 98, 99, 100], []⟩,
        none, [], 0⟩).rowoff = 0
    ∧ (editorScroll ⟨4, 5, 0, 3, 0, 24, 80, List.replicate 10 ⟨[97, 98, 99, 100], []⟩,
        none, [], 0⟩).rowoff = 3
    ∧ (editorScroll ⟨4, 5, 0, 0, 0, 24, 80, List.replicate 10 ⟨[97, 98, 99, 100], []⟩,
        none, [], 0⟩).coloff = 0
    ∧ (editorScroll ⟨4, 5, 0, 0, 2, 24, 80, List.replicate 10 ⟨[97, 98, 99, 100], []⟩,
        none, [], 0⟩).coloff = 2 := by
  refine ⟨fun h => ?_, by decide, by decide, by decide, by decide⟩
  have := (h ⟨4, 5, 0, 0, 0, 24, 80, List.replicate 10 ⟨[97, 98, 99, 100], []⟩, none, [], 0⟩
    ⟨4, 5, 0, 3, 0, 24, 80, List.replicate 10 ⟨[97, 98, 99, 100], []⟩, none, [], 0⟩
    rfl rfl rfl rfl rfl).1
  revert this
  decide

/-- C20 (amended): the viewport recompute is a pure function of the current
cursor, the fixed window size and the previous offsets.  For any two states
that agree on the buffer, on `cx`, `cy` and on `screenrows`, `screencols`,
`editorScroll` computes the same `rx`, whatever the stale `rx` was; it leaves
the same `rowoff` if the previous `rowoff` agree, or if the cursor row is above
both or at or below the end of both previous windows; and the same holds for
`coloff` against `rx` and `screencols`.  A cursor that is already visible
(`rowoff <= cy < rowoff + screenrows`, resp. `coloff <= rx < coloff +
screencols`) keeps the previous offset, in each of the two states. -/
theorem editorScroll_depends_on (E F : editorConfig)
    (hrow : E.row = F.row) (hcx : E.cx = F.cx) (hcy : E.cy = F.cy)
    (hsr : E.screenrows = F.screenrows) (hsc : E.screencols = F.screencols) :
    (editorScroll E).rx = (editorScroll F).rx
    ∧ (E.rowoff = F.rowoff → (editorScroll E).rowoff = (editorScroll F).rowoff)
    ∧ (E.coloff = F.coloff → (editorScroll E).coloff = (editorScroll F).coloff)
    ∧ (E.cy < E.rowoff ∧ F.cy < F.rowoff →
        (editorScroll E).rowoff = (editorScroll F).rowoff)
    ∧ (E.cy ≥ E.rowoff + E.screenrows ∧ F.cy ≥ F.rowoff + F.screenrows →
        (editorScroll E).rowoff = (editorScroll F).rowoff)
    ∧ ((editorScroll E).rx < E.coloff ∧ (editorScroll F).rx < F.coloff →
        (editorScroll E).coloff = (editorScroll F).coloff)
    ∧ ((editorScroll E).rx ≥ E.coloff + E.screencols
          ∧ (editorScroll F).rx ≥ F.coloff + F.screencols →
        (editorScroll E).coloff = (editorScroll F).coloff)
    ∧ (E.rowoff ≤ E.cy ∧ E.cy < E.rowoff + E.screenrows →
        (editorScroll E).rowoff = E.rowoff)
    ∧ (F.rowoff ≤ F.cy ∧ F.cy < F.rowoff + F.screenrows →
        (editorScroll F).rowoff = F.rowoff)
    ∧ (E.coloff ≤ (editorScroll E).rx ∧ (editorScroll E).rx < E.coloff + E.screencols →
        (editorScroll E).coloff = E.coloff)
    ∧ (F.coloff ≤ (editorScroll F).rx ∧ (editorScroll F).rx < F.coloff + F.screencols →
        (editorScroll F).coloff = F.coloff) := by
  have hrx : (editorScroll E).rx = (editorScroll F).rx := by
    rw [editorScroll_rx, editorScroll_rx, editorConfig.numrows, editorConfig.numrows,
      editorConfig.rowAt, editorConfig.rowAt, hrow, hcx, hcy]
  have hkeepRow : ∀ G : editorConfig, G.rowoff ≤ G.cy ∧ G.cy < G.rowoff + G.screenrows →
      (editorScroll G).rowoff = G.rowoff := by
    intro G h
    rw [editorScroll_rowoff]
    split_ifs <;> omega
  have hkeepCol : ∀ G : editorConfig,
      G.coloff ≤ (editorScroll G).rx ∧ (editorScroll G).rx < G.coloff + G.screencols →
      (editorScroll G).coloff = G.coloff := by
    intro G h
    rw [editorScroll_coloff]
    split_ifs <;> omega
  refine ⟨hrx, ?_, ?_, ?_, ?_, ?_, ?_, hkeepRow E, hkeepRow F, hkeepCol E, hkeepCol F⟩
  · intro h
    rw [editorScroll_rowoff, editorScroll_rowoff, h, hcy, hsr]
  · intro h
    rw [editorScroll_coloff, editorScroll_coloff, h, hrx, hsc]
  · intro h
    rw [editorScroll_rowoff, editorScroll_rowoff, if_pos h.1, if_pos h.2, hcy, hsr]
  · intro h
    rw [editorScroll_rowoff, editorScroll_rowoff]
    split_ifs <;> omega
  · intro h
    rw [editorScroll_coloff, editorScroll_coloff, if_pos h.1, if_pos h.2, hrx, hsc]
  · intro h
    rw [editorScroll_coloff, editorScroll_coloff]
    split_ifs <;> omega

/-- Witness of C20 (amended): two states that differ in the stale `rx` and in
the status message only compute the same `rx` and `rowoff`; and a cursor on
row 5, visible in the 24-row window at `rowoff = 3`, keeps `rowoff = 3`. -/
theorem editorScroll_depends_on_witness :
    (editorScroll ⟨1, 0, 0, 2, 0, 24, 80, [⟨[9, 97], []⟩], none, [], 0⟩).rx
      = (editorScroll ⟨1, 0, 55, 2, 0, 24, 80, [⟨[9, 97], []⟩], none, [72], 9⟩).rx
    ∧ (editorScroll ⟨1, 0, 0, 2, 0, 24, 80, [⟨[9, 97], []⟩], none, [], 0⟩).rowoff
      = (editorScroll ⟨1, 0, 55, 2, 0, 24, 80, [⟨[9, 97], []⟩], none, [72], 9⟩).rowoff
    ∧ (editorScroll ⟨4, 5, 0, 3, 0, 24, 80, List.replicate 10 ⟨[97, 98, 99, 100], []⟩,
        none, [], 0⟩).rowoff = 3 :=
  ⟨(editorScroll_depends_on ⟨1, 0, 0, 2, 0, 24, 80, [⟨[9, 97], []⟩], none, [], 0⟩
      ⟨1, 0, 55, 2, 0, 24, 80, [⟨[9, 97], []⟩], none, [72], 9⟩ rfl rfl rfl rfl rfl).1,
    (editorScroll_depends_on ⟨1, 0, 0, 2, 0, 24, 80, [⟨[9, 97], []⟩], none, [], 0⟩
      ⟨1, 0, 55, 2, 0, 24, 80, [⟨[9, 97], []⟩], none, [72], 9⟩ rfl rfl rfl rfl rfl).2.1 rfl,
    (editorScroll_depends_on
      ⟨4, 5, 0, 3, 0, 24, 80, List.replicate 10 ⟨[97, 98, 99, 100], []⟩, none, [], 0⟩
      ⟨4, 5, 0, 0, 0, 24, 80, List.replicate 10 ⟨[97, 98, 99, 100], []⟩, none, [], 0⟩
      rfl rfl rfl rfl rfl).2.2.2.2.2.2.2.1 (by decide)⟩

/-! ## the viewport rule -/

/-- C21: for every state with `screenrows >= 1`, the two independent tests of
`editorScroll` compute the if / else-if rule of the specification: the new
`rowoff` is `cy` when `cy < rowoff`, `cy - screenrows + 1` when
`cy >= rowoff + screenrows`, and the old `rowoff` otherwise; the same holds for
`coloff` against `rx` and `screencols` when `screencols >= 1`; `cx`, `cy` and
the buffer are unchanged. -/
theorem editorScroll_eq_viewportRule (E : editorConfig) (hrows : 1 ≤ E.screenrows) :
    (editorScroll E).rowoff = viewportRule E.cy E.rowoff E.screenrows
    ∧ (1 ≤ E.screencols →
        (editorScroll E).coloff = viewportRule (editorScroll E).rx E.coloff E.screencols)
    ∧ (E.rowoff ≤ E.cy ∧ E.cy < E.rowoff + E.screenrows → (editorScroll E).rowoff = E.rowoff)
    ∧ (editorScroll E).cx = E.cx ∧ (editorScroll E).cy = E.cy
    ∧ (editorScroll E).row = E.row := by
  obtain ⟨rx, ro, co, hf⟩ := editorScroll_frame E
  refine ⟨?_, ?_, ?_, ?_, ?_, ?_⟩
  · rw [editorScroll_rowoff, viewportRule]
    split_ifs <;> omega
  · intro hcols
    rw [editorScroll_coloff, viewportRule]
    split_ifs <;> omega
  · intro h
    rw [editorScroll_rowoff]
    split_ifs <;> omega
  · rw [hf]
  · rw [hf]
  · rw [hf]

/-- Witness of C21: a 24 x 80 window on a 40-row buffer, cursor on row 30 with
`rowoff = 0`: the offset becomes `30 - 24 + 1 = 7`. -/
theorem editorScroll_eq_viewportRule_witness :
    (editorScroll ⟨0, 30, 0, 0, 0, 24, 80, List.replicate 40 ⟨[97], [97]⟩, none, [], 0⟩).rowoff
      = viewportRule 30 0 24
    ∧ viewportRule 30 0 24 = 7 :=
  ⟨(editorScroll_eq_viewportRule
      ⟨0, 30, 0, 0, 0, 24, 80, List.replicate 40 ⟨[97], [97]⟩, none, [], 0⟩ (by decide)).1,
    by decide⟩

/-! ## paging by a screenful -/

/-- C22: for every state with `screenrows >= 1` and `0 <= rowoff <= numrows`,
dispatching `PAGE_UP` yields `cy = max(rowoff - screenrows, 0)` and dispatching
`PAGE_DOWN` yields `cy = min(rowoff + 2*screenrows - 1, numrows)`: the result of
setting `cy = rowoff` (resp. `min(rowoff + screenrows - 1, numrows)`) and then
making exactly `screenrows` single Up (resp. Down) moves; `rowoff` is not
changed by the dispatch. -/
theorem dispatchKey_page_cy (E : editorConfig) (hrows : 1 ≤ E.screenrows)
    (hoff : 0 ≤ E.rowoff ∧ E.rowoff ≤ E.numrows) :
    (dispatchKey E PAGE_UP).cy = max (E.rowoff - E.screenrows) 0
    ∧ (dispatchKey E PAGE_DOWN).cy = min (E.rowoff + 2 * E.screenrows - 1) E.numrows
    ∧ dispatchKey E PAGE_UP
        = repeatMove E.screenrows.toNat { E with cy := E.rowoff } ARROW_UP
    ∧ dispatchKey E PAGE_DOWN
        = repeatMove E.screenrows.toNat
            { E with cy := min (E.rowoff + E.screenrows - 1) E.numrows } ARROW_DOWN
    ∧ (E.screenrows.toNat : Int) = E.screenrows
    ∧ (dispatchKey E PAGE_UP).rowoff = E.rowoff
    ∧ (dispatchKey E PAGE_DOWN).rowoff = E.rowoff := by
  obtain ⟨cx1, cy1, hu⟩ := dispatchKey_frame E PAGE_UP
  obtain ⟨cx2, cy2, hd⟩ := dispatchKey_frame E PAGE_DOWN
  refine ⟨dispatchKey_pageUp_cy E (by omega) hoff.1, ?_, ?_, ?_,
    Int.toNat_of_nonneg (by omega), ?_, ?_⟩
  · rw [dispatchKey_pageDown_cy E (by omega)]
    omega
  · rw [dispatchKey_pageUp, pageStart_pageUp]
  · rw [dispatchKey_pageDown, pageStart_pageDown]
    congr 2
    show (if E.rowoff + E.screenrows - 1 > E.numrows then E.numrows
      else E.rowoff + E.screenrows - 1) = _
    split_ifs <;> omega
  · rw [hu]
  · rw [hd]

/-- Witness of C22: a 3-row window at `rowoff = 4` on a 10-row buffer:
`PAGE_UP` lands on row 1 and `PAGE_DOWN` on row 9. -/
theorem dispatchKey_page_cy_witness :
    (dispatchKey ⟨0, 5, 0, 4, 0, 3, 80, List.replicate 10 ⟨[97], [97]⟩, none, [], 0⟩
        PAGE_UP).cy = max (4 - 3) 0
    ∧ (dispatchKey ⟨0, 5, 0, 4, 0, 3, 80, List.replicate 10 ⟨[97], [97]⟩, none, [], 0⟩
        PAGE_DOWN).cy
      = min (4 + 2 * 3 - 1)
          (editorConfig.mk 0 5 0 4 0 3 80 (List.replicate 10 ⟨[97], [97]⟩) none [] 0).numrows :=
  ⟨(dispatchKey_page_cy ⟨0, 5, 0, 4, 0, 3, 80, List.replicate 10 ⟨[97], [97]⟩, none, [], 0⟩
      (by decide) (by decide)).1,
    (dispatchKey_page_cy ⟨0, 5, 0, 4, 0, 3, 80, List.replicate 10 ⟨[97], [97]⟩, none, [], 0⟩
      (by decide) (by decide)).2.1⟩

/-! ## the coordinate mapper and the rendered prefix -/

theorem tabWalk_append (out a b : List Nat) :
    tabWalk out (a ++ b) = tabWalk (tabWalk out a) b := by
  induction a generalizing out with
  | nil => rfl
  | cons c cs ih =>
    simp only [List.cons_append, tabWalk]
    split_ifs <;> exact ih _

theorem tabWalk_extends (out raw : List Nat) : out <+: tabWalk out raw := by
  induction raw generalizing out with
  | nil => exact List.prefix_refl _
  | cons c cs ih =>
    simp only [tabWalk]
    split_ifs
    · exact (List.prefix_append _ _).trans (ih _)
    · exact (List.prefix_append _ _).trans (ih _)

theorem editorRowCxToRx_eq_tabWalk_length (row : erow) (n : Nat) (hn : n ≤ row.chars.length) :
    editorRowCxToRx row (n : Int) = ((tabWalk [] (row.chars.take n)).length : Int) := by
  rw [← renderLoop_eq_tabWalk, renderLoop_length]
  show (List.range (n : Int).toNat).foldl (fun rx j => rxStep rx (row.chars.getD j 0)) 0 = _
  rw [Int.toNat_ofNat, foldl_range_getD _ _ _ hn]
  rfl

/-- C23: for every row and every `cx` with `0 <= cx <= row.size`,
`editorRowCxToRx(row, cx)` is the length of the tab expansion of the first `cx`
bytes of `chars`, and that expansion is a prefix of the rendered form that
`editorUpdateRow` computes, so `rx` is a position inside `render` or at its
end. -/
theorem editorRowCxToRx_within_render (row : erow) (cx : Int) (h0 : 0 ≤ cx) (h1 : cx ≤ row.size) :
    editorRowCxToRx row cx = ((tabWalk [] (row.chars.take cx.toNat)).length : Int)
    ∧ tabWalk [] (row.chars.take cx.toNat)
        = (editorUpdateRow ⟨row.chars.take cx.toNat, []⟩).render
    ∧ tabWalk [] (row.chars.take cx.toNat) <+: (editorUpdateRow row).render
    ∧ 0 ≤ editorRowCxToRx row cx
    ∧ editorRowCxToRx row cx ≤ (editorUpdateRow row).rsize := by
  obtain ⟨n, rfl⟩ := Int.eq_ofNat_of_zero_le h0
  have hn : n ≤ row.chars.length := by
    unfold erow.size at h1
    exact_mod_cast h1
  have hlen := editorRowCxToRx_eq_tabWalk_length row n hn
  have hpre : tabWalk [] (row.chars.take n) <+: (editorUpdateRow row).render := by
    show _ <+: renderLoop row.chars []
    rw [renderLoop_eq_tabWalk]
    conv_rhs => rw [← List.take_append_drop n row.chars, tabWalk_append]
    exact tabWalk_extends _ _
  rw [Int.toNat_ofNat]
  refine ⟨hlen, (renderLoop_eq_tabWalk _ _).symm, hpre, ?_, ?_⟩
  · rw [hlen]
    exact Int.ofNat_nonneg _
  · rw [hlen, erow.rsize]
    exact_mod_cast hpre.length_le

/-- Witness of C23 on the row `a TAB b` at `cx = 2`: the prefix `a TAB` expands
to 8 bytes. -/
theorem editorRowCxToRx_within_render_witness :
    editorRowCxToRx ⟨[97, 9, 98], []⟩ 2
      = ((tabWalk [] (List.take (2 : Int).toNat [97, 9, 98])).length : Int)
    ∧ ((tabWalk [] (List.take (2 : Int).toNat [97, 9, 98])).length : Int) = 8 :=
  ⟨(editorRowCxToRx_within_render ⟨[97, 9, 98], []⟩ 2 (by decide) (by decide)).1, by decide⟩

/-! ## drawing the rows -/

theorem rowSlice_eq (E : editorConfig) (filerow : Int) (ab : List Nat) :
    rowSlice E filerow ab
      = ab ++ ((E.rowAt filerow).render.drop E.coloff.toNat).take
          (min (max ((E.rowAt filerow).rsize - E.coloff) 0) E.screencols).toNat := by
  unfold rowSlice abAppend
  simp only []
  congr 3
  split_ifs <;> omega

/-- C24: for every screen row `y` of `editorDrawRows` whose file row
`y + rowoff` is inside the buffer, with `coloff >= 0` and `screencols >= 0`,
the text emitted for the row (before the erase-line code and the line break) is
the bytes of the row's `render` from index `coloff`, of length
`min(max(rsize - coloff, 0), screencols)`: empty when `coloff >= rsize`, never
longer than `screencols`, and read from indices below `rsize` only. -/
theorem drawRow_slice (E : editorConfig) (y : Int) (ab : List Nat)
    (hfile : 0 ≤ y + E.rowoff ∧ y + E.rowoff < E.numrows)
    (hcol : 0 ≤ E.coloff) (hsc : 0 ≤ E.screencols) :
    drawRow E y ab
        = ab ++ ((E.rowAt (y + E.rowoff)).render.drop E.coloff.toNat).take
            (min (max ((E.rowAt (y + E.rowoff)).rsize - E.coloff) 0) E.screencols).toNat
          ++ [27, 91, 75] ++ [13, 10]
    ∧ ((((E.rowAt (y + E.rowoff)).render.drop E.coloff.toNat).take
          (min (max ((E.rowAt (y + E.rowoff)).rsize - E.coloff) 0) E.screencols).toNat).length
            : Int)
        = min (max ((E.rowAt (y + E.rowoff)).rsize - E.coloff) 0) E.screencols
    ∧ min (max ((E.rowAt (y + E.rowoff)).rsize - E.coloff) 0) E.screencols ≤ E.screencols
    ∧ (E.coloff ≥ (E.rowAt (y + E.rowoff)).rsize →
        ((E.rowAt (y + E.rowoff)).render.drop E.coloff.toNat).take
          (min (max ((E.rowAt (y + E.rowoff)).rsize - E.coloff) 0) E.screencols).toNat = [])
    ∧ (∀ i : Nat,
        (i : Int) < min (max ((E.rowAt (y + E.rowoff)).rsize - E.coloff) 0) E.screencols →
        (E.coloff.toNat + i : Int) < (E.rowAt (y + E.rowoff)).rsize
        ∧ (((E.rowAt (y + E.rowoff)).render.drop E.coloff.toNat).take
            (min (max ((E.rowAt (y + E.rowoff)).rsize - E.coloff) 0) E.screencols).toNat)[i]?
          = (E.rowAt (y + E.rowoff)).render[E.coloff.toNat + i]?) := by
  generalize hrow : E.rowAt (y + E.rowoff) = r
  have hdraw : drawRow E y ab = rowSlice E (y + E.rowoff) ab ++ [27, 91, 75] ++ [13, 10] := by
    unfold drawRow
    simp only []
    rw [if_neg (by omega)]
    rfl
  refine ⟨?_, ?_, min_le_right _ _, ?_, ?_⟩
  · rw [hdraw, rowSlice_eq, hrow]
  · rw [List.length_take, List.length_drop]
    unfold erow.rsize
    omega
  · intro h
    have : (min (max (r.rsize - E.coloff) 0) E.screencols).toNat = 0 := by omega
    rw [this, List.take_zero]
  · intro i hi
    refine ⟨?_, ?_⟩
    · omega
    · rw [List.getElem?_take_of_lt (by omega), List.getElem?_drop]

/-- Witness of C24: the row `abcdef` drawn at `coloff = 2` in a 3-column
window shows `cde`. -/
theorem drawRow_slice_witness :
    drawRow ⟨0, 0, 0, 0, 2, 5, 3, [⟨[97, 98, 99, 100, 101, 102], [97, 98, 99, 100, 101, 102]⟩],
        none, [], 0⟩ 0 []
      = [] ++ [99, 100, 101] ++ [27, 91, 75] ++ [13, 10] :=
  (drawRow_slice ⟨0, 0, 0, 0, 2, 5, 3,
      [⟨[97, 98, 99, 100, 101, 102], [97, 98, 99, 100, 101, 102]⟩], none, [], 0⟩ 0 []
    (by decide) (by decide) (by decide)).1

theorem drawRow_append (E : editorConfig) (y : Int) (ab : List Nat) :
    drawRow E y ab = ab ++ drawRow E y [] := by
  unfold drawRow welcomeRow rowSlice abAppend
  simp only []
  split_ifs <;> simp only [List.append_assoc, List.nil_append]

/-- The frame part that `editorDrawRows` adds is the texts of the screen rows
`0 .. screenrows - 1` in order. -/
theorem editorDrawRows_eq (E : editorConfig) (ab : List Nat) :
    editorDrawRows E ab
      = ab ++ ((List.range E.screenrows.toNat).map (fun (y : Nat) => drawRow E (y : Int) [])).flatten := by
  unfold editorDrawRows
  induction E.screenrows.toNat with
  | zero => simp
  | succ n ih =>
    rw [List.range_succ, List.foldl_append, ih, List.map_append, List.flatten_append]
    simp only [List.foldl_cons, List.foldl_nil, List.map_cons, List.map_nil, List.flatten_cons,
      List.flatten_nil, List.append_nil]
    rw [drawRow_append, List.append_assoc]

/-! ## status bar -/

theorem statusLoop_eq (screencols rlen : Int) (rstatus : List Nat) (hr : 1 ≤ rlen)
    (n : Nat) (len : Int) (ab : List Nat) (hn : (screencols - len).toNat = n)
    (hlen : len ≤ screencols) :
    statusLoop screencols rlen rstatus len ab
      = (if len + rlen ≤ screencols
         then ab ++ List.replicate (screencols - len - rlen).toNat 32 ++ rstatus.take rlen.toNat
         else ab ++ List.replicate (screencols - len).toNat 32) := by
  induction n generalizing len ab with
  | zero =>
    have hge : ¬ (len < screencols) := by omega
    rw [statusLoop, if_neg hge, if_neg (by omega)]
    have : (screencols - len).toNat = 0 := hn
    rw [this]
    simp
  | succ k ih =>
    have hlt : len < screencols := by omega
    rw [statusLoop, if_pos hlt]
    by_cases heq : screencols - len = rlen
    · rw [if_pos heq, if_pos (by omega)]
      have : (screencols - len - rlen).toNat = 0 := by omega
      rw [this]
      simp [abAppend]
    · rw [if_neg heq, ih (len + 1) _ (by omega) (by omega)]
      have h1 : abAppend ab [32] 1 = ab ++ [32] := rfl
      rw [h1]
      by_cases hfit : len + rlen ≤ screencols
      · rw [if_pos (by omega), if_pos hfit]
        have : (screencols - len - rlen).toNat = (screencols - (len + 1) - rlen).toNat + 1 := by
          omega
        rw [this, List.replicate_succ]
        simp
      · rw [if_neg (by omega), if_neg hfit]
        have : (screencols - len).toNat = (screencols - (len + 1)).toNat + 1 := by omega
        rw [this, List.replicate_succ]
        simp

/-- C25: for every `screencols >= 0`, every left status text and every right
status text of length `rlen >= 1`, the bytes that `editorDrawStatusBar` emits
between the inverse-video on and off codes total exactly `screencols`: when
`len + rlen <= screencols` they are the left text, then spaces, then the right
text ending at the right edge; otherwise they are the left text truncated to
`screencols` and padded with spaces, without the right text. -/
theorem editorDrawStatusBar_fills (E : editorConfig) (status rstatus ab : List Nat)
    (hsc : 0 ≤ E.screencols) (hr : 1 ≤ rstatus.length) :
    statusBarBody E.screencols status rstatus status.length rstatus.length ab
        = ab ++ (if (status.length : Int) + rstatus.length ≤ E.screencols
          then status ++ List.replicate
            (E.screencols - status.length - rstatus.length).toNat 32 ++ rstatus
          else status.take E.screencols.toNat ++ List.replicate
            (E.screencols.toNat - status.length) 32)
    ∧ (((if (status.length : Int) + rstatus.length ≤ E.screencols
          then status ++ List.replicate
            (E.screencols - status.length - rstatus.length).toNat 32 ++ rstatus
          else status.take E.screencols.toNat ++ List.replicate
            (E.screencols.toNat - status.length) 32).length : Int) = E.screencols)
    ∧ editorDrawStatusBar E ab
        = statusBarBody E.screencols ((statusText E).take 79) ((rstatusText E).take 79)
            (statusText E).length (rstatusText E).length (ab ++ [27, 91, 55, 109])
          ++ [27, 91, 109] ++ [13, 10]
    ∧ 1 ≤ (rstatusText E).length := by
  refine ⟨?_, ?_, rfl, ?_⟩
  · unfold statusBarBody abAppend
    simp only []
    by_cases hlong : (status.length : Int) > E.screencols
    · rw [if_pos hlong, statusLoop_eq _ _ _ (by exact_mod_cast hr) _ _ _ rfl (le_refl _),
        if_neg (by omega), if_neg (by omega)]
      have h0 : (E.screencols - E.screencols).toNat = 0 := by omega
      have h1 : E.screencols.toNat - status.length = 0 := by omega
      rw [h0, h1]
      simp
    · rw [if_neg hlong, statusLoop_eq _ _ _ (by exact_mod_cast hr) _ _ _ rfl (by omega),
        Int.toNat_ofNat, List.take_length]
      by_cases hfit : (status.length : Int) + rstatus.length ≤ E.screencols
      · rw [if_pos hfit, if_pos hfit, Int.toNat_ofNat, List.take_length]
        simp
      · rw [if_neg hfit, if_neg hfit, List.take_of_length_le (by omega)]
        have : (E.screencols - status.length).toNat = E.screencols.toNat - status.length := by
          omega
        rw [this]
        simp
  · split_ifs with hfit
    · simp only [List.length_append, List.length_replicate]
      push_cast
      omega
    · simp only [List.length_append, List.length_replicate, List.length_take]
      push_cast
      omega
  · unfold rstatusText
    simp only [List.length_append, List.length_singleton]
    omega

/-- Witness of C25: in a 10-column window the left text `ab` and the right text
`1/2` are drawn as `ab`, five spaces, `1/2`. -/
theorem editorDrawStatusBar_fills_witness :
    statusBarBody (editorConfig.mk 0 0 0 0 0 24 10 [] none [] 0).screencols
        [97, 98] [49, 47, 50] (List.length [97, 98]) (List.length [49, 47, 50]) []
      = [97, 98, 32, 32, 32, 32, 32, 49, 47, 50] :=
  (editorDrawStatusBar_fills ⟨0, 0, 0, 0, 0, 24, 10, [], none, [], 0⟩ [97, 98] [49, 47, 50] []
    (by decide) (by decide)).1

/-! ## the size of the rendered row -/

theorem padLoop_passes (render : List Nat) :
    ∃ k, k ≤ 7 ∧ padLoop render = render ++ List.replicate k SPACE
      ∧ (render.length + k) % 8 = 0 := by
  refine ⟨(8 - render.length % 8) % 8, by omega, padLoop_eq render, by omega⟩

theorem renderLoop_length_le (chars render : List Nat) :
    (renderLoop chars render).length ≤ render.length + chars.length + 7 * countTabs chars := by
  induction chars generalizing render with
  | nil => simp [renderLoop, countTabs]
  | cons c cs ih =>
    by_cases h : c = TAB
    · have := ih (padLoop (render ++ [SPACE]))
      rw [padLoop_space, List.length_append, List.length_replicate] at this
      rw [renderLoop, if_pos h, padLoop_space, countTabs, if_pos h, List.length_cons]
      omega
    · have := ih (render ++ [c])
      rw [List.length_append, List.length_singleton] at this
      rw [renderLoop, if_neg h, countTabs, if_neg h, List.length_cons]
      omega

/-- C26: for every row with `size` bytes of which `t` are tabs, the rendered
length satisfies `rsize <= size + 7*t`, so every index that `editorUpdateRow`
writes in `render`, the terminating NUL at index `rsize` included, is below the
allocated `size + 7*t + 1`; each run of the inner padding loop makes at most 7
passes, one space each, and stops on a multiple of 8. -/
theorem editorUpdateRow_within_alloc (row : erow) (render : List Nat) :
    (editorUpdateRow row).rsize ≤ row.size + 7 * countTabs row.chars
    ∧ renderAlloc row = row.chars.length + 7 * countTabs row.chars + 1
    ∧ (∀ idx : Nat, idx ≤ (editorUpdateRow row).render.length → idx < renderAlloc row)
    ∧ (∃ passes, passes ≤ 7
        ∧ padLoop (render ++ [SPACE]) = (render ++ [SPACE]) ++ List.replicate passes SPACE
        ∧ ((render ++ [SPACE]).length + passes) % MoTEXT_TAB_STOP = 0) := by
  have hle := renderLoop_length_le row.chars []
  have hrs : (editorUpdateRow row).render = renderLoop row.chars [] := rfl
  have hal : renderAlloc row = row.chars.length + 7 * countTabs row.chars + 1 := by
    unfold renderAlloc MoTEXT_TAB_STOP
    omega
  refine ⟨?_, hal, ?_, padLoop_passes _⟩
  · unfold erow.rsize erow.size
    rw [hrs]
    simp only [List.length_nil] at hle
    exact_mod_cast (by omega : (renderLoop row.chars []).length
      ≤ row.chars.length + 7 * countTabs row.chars)
  · intro idx hidx
    rw [hrs] at hidx
    rw [hal]
    simp only [List.length_nil] at hle
    omega

/-- Witness of C26 on the row `TAB TAB`: 16 rendered bytes, and the NUL
written at index 16 lies inside the 17 bytes allocated. -/
theorem editorUpdateRow_within_alloc_witness :
    (16 : Nat) < renderAlloc ⟨[9, 9], []⟩ ∧ renderAlloc ⟨[9, 9], []⟩ = 17 :=
  ⟨(editorUpdateRow_within_alloc ⟨[9, 9], []⟩ []).2.2.1 16
      (by
        rw [show (editorUpdateRow ⟨[9, 9], []⟩).render = tabWalk [] [9, 9] from
          renderLoop_eq_tabWalk _ _]
        decide),
    by decide⟩

/-! ## the offsets along the main loop -/

theorem editorRowCxToRx_nonneg (row : erow) (cx : Int) : 0 ≤ editorRowCxToRx row cx := by
  have h := editorRowCxToRx_add row 0 cx.toNat
  have h0 : editorRowCxToRx row ((0 : Nat) : Int) = 0 := rfl
  have e : editorRowCxToRx row ((0 + cx.toNat : Nat) : Int) = editorRowCxToRx row cx := by
    unfold editorRowCxToRx
    rw [Nat.zero_add, Int.toNat_ofNat]
  rw [h0, e] at h
  omega

theorem editorScroll_rx_nonneg (E : editorConfig) : 0 ≤ (editorScroll E).rx := by
  rw [editorScroll_rx]
  split_ifs
  · exact editorRowCxToRx_nonneg _ _
  · exact le_refl _

theorem editorScroll_inBounds (E : editorConfig) (h : cursorInBounds E) :
    cursorInBounds (editorScroll E) := by
  obtain ⟨rx, ro, co, hf⟩ := editorScroll_frame E
  have hl : rowLen (editorScroll E) = rowLen E := rowLen_congr _ _ (by rw [hf]) (by rw [hf])
  have hcx : (editorScroll E).cx = E.cx := by rw [hf]
  have hcy : (editorScroll E).cy = E.cy := by rw [hf]
  have hn : (editorScroll E).numrows = E.numrows := by rw [hf]; rfl
  unfold cursorInBounds
  rw [hl, hcx, hcy, hn]
  exact h

theorem editorScroll_offsets (E : editorConfig) (hrows : 1 ≤ E.screenrows)
    (_hcols : 1 ≤ E.screencols) (hcy : 0 ≤ E.cy ∧ E.cy ≤ E.numrows)
    (hoff : 0 ≤ E.rowoff ∧ E.rowoff ≤ E.numrows) (hco : 0 ≤ E.coloff) :
    (0 ≤ (editorScroll E).rowoff ∧ (editorScroll E).rowoff ≤ (editorScroll E).numrows)
    ∧ 0 ≤ (editorScroll E).coloff := by
  obtain ⟨rx, ro, co, hf⟩ := editorScroll_frame E
  have hn : (editorScroll E).numrows = E.numrows := by rw [hf]; rfl
  have hrx := editorScroll_rx_nonneg E
  rw [hn, editorScroll_rowoff, editorScroll_coloff]
  refine ⟨⟨?_, ?_⟩, ?_⟩ <;> split_ifs <;> omega

theorem dispatchKey_inBounds (E : editorConfig) (c : Int) (hrows : 1 ≤ E.screenrows)
    (hoff : 0 ≤ E.rowoff ∧ E.rowoff ≤ E.numrows) (h : cursorInBounds E) :
    cursorInBounds (dispatchKey E c) := by
  obtain ⟨h0, h1, h2, h3⟩ := h
  unfold dispatchKey
  by_cases ha : c = HOME_KEY
  · rw [if_pos ha]
    exact ⟨h0, h1, le_refl _, rowLen_nonneg _⟩
  rw [if_neg ha]
  by_cases hb : c = END_KEY
  · rw [if_pos hb]
    by_cases hc : E.cy < E.numrows
    · rw [if_pos hc]
      refine ⟨h0, h1, Int.ofNat_nonneg _, ?_⟩
      have hr : rowLen { E with cx := (E.rowAt E.cy).size } = (E.rowAt E.cy).size := by
        rw [rowLen_congr { E with cx := (E.rowAt E.cy).size } E rfl rfl, rowLen, currentRow,
          if_neg (by omega)]
      rw [hr]
    · rw [if_neg hc]
      exact ⟨h0, h1, h2, h3⟩
  rw [if_neg hb]
  by_cases hc : c = PAGE_UP ∨ c = PAGE_DOWN
  · rw [if_pos hc]
    have hp := pageStart_range E c hrows hoff ⟨h0, h1⟩ h2
    have ht : 1 ≤ E.screenrows.toNat := by omega
    refine pageMoves_inBounds _ _ _ ?_ ht hp.1 hp.2
    by_cases hu : c = PAGE_UP
    · rw [if_pos hu]
      exact Or.inl rfl
    · rw [if_neg hu]
      exact Or.inr rfl
  rw [if_neg hc]
  by_cases hd : c = ARROW_UP ∨ c = ARROW_DOWN ∨ c = ARROW_LEFT ∨ c = ARROW_RIGHT
  · rw [if_pos hd]
    exact editorMoveCursor_inBounds E c ⟨h0, h1, h2, h3⟩
  · rw [if_neg hd]
    exact ⟨h0, h1, h2, h3⟩

/-- One pass of the main loop keeps the window size and the buffer, the cursor
within the bounds, and the offsets within `0 <= rowoff <= numrows`,
`0 <= coloff`. -/
theorem mainCycle_invariant (E : editorConfig) (c : Int)
    (hrows : 1 ≤ E.screenrows) (hcols : 1 ≤ E.screencols) (hin : cursorInBounds E)
    (hoff : 0 ≤ E.rowoff ∧ E.rowoff ≤ E.numrows) (hco : 0 ≤ E.coloff) :
    (dispatchKey (editorScroll E) c).screenrows = E.screenrows
    ∧ (dispatchKey (editorScroll E) c).screencols = E.screencols
    ∧ (dispatchKey (editorScroll E) c).row = E.row
    ∧ cursorInBounds (dispatchKey (editorScroll E) c)
    ∧ (0 ≤ (dispatchKey (editorScroll E) c).rowoff
        ∧ (dispatchKey (editorScroll E) c).rowoff ≤ (dispatchKey (editorScroll E) c).numrows)
    ∧ 0 ≤ (dispatchKey (editorScroll E) c).coloff := by
  obtain ⟨rx, ro, co, hf⟩ := editorScroll_frame E
  obtain ⟨cx, cy, hd⟩ := dispatchKey_frame (editorScroll E) c
  have hs := editorScroll_offsets E hrows hcols ⟨hin.1, hin.2.1⟩ hoff hco
  have hsin := editorScroll_inBounds E hin
  have hsr : (editorScroll E).screenrows = E.screenrows := by rw [hf]
  have hsc : (editorScroll E).screencols = E.screencols := by rw [hf]
  have hrow : (editorScroll E).row = E.row := by rw [hf]
  have hdin := dispatchKey_inBounds (editorScroll E) c (by rw [hsr]; exact hrows) hs.1 hsin
  have e1 : (dispatchKey (editorScroll E) c).screenrows = (editorScroll E).screenrows := by
    rw [hd]
  have e2 : (dispatchKey (editorScroll E) c).screencols = (editorScroll E).screencols := by
    rw [hd]
  have e3 : (dispatchKey (editorScroll E) c).row = (editorScroll E).row := by rw [hd]
  have e4 : (dispatchKey (editorScroll E) c).rowoff = (editorScroll E).rowoff := by rw [hd]
  have e5 : (dispatchKey (editorScroll E) c).coloff = (editorScroll E).coloff := by rw [hd]
  have e6 : (dispatchKey (editorScroll E) c).numrows = (editorScroll E).numrows := by
    rw [editorConfig.numrows, e3]
    rfl
  refine ⟨e1.trans hsr, e2.trans hsc, e3.trans hrow, hdin, ?_, ?_⟩
  · rw [e4, e6]
    exact hs.1
  · rw [e5]
    exact hs.2

theorem runKeys_invariant (keys : List Int) (E : editorConfig)
    (hrows : 1 ≤ E.screenrows) (hcols : 1 ≤ E.screencols) (hin : cursorInBounds E)
    (hoff : 0 ≤ E.rowoff ∧ E.rowoff ≤ E.numrows) (hco : 0 ≤ E.coloff) :
    (∀ F, runKeys E keys = some F →
        (F.row = E.row ∧ F.screenrows = E.screenrows ∧ F.screencols = E.screencols)
        ∧ cursorInBounds F ∧ 0 ≤ F.rowoff ∧ F.rowoff ≤ F.numrows ∧ 0 ≤ F.coloff)
    ∧ ((∀ c ∈ keys, c ≠ CTRL_KEY 113) → ∃ F, runKeys E keys = some F) := by
  induction keys generalizing E with
  | nil =>
    refine ⟨fun F hF => ?_, fun _ => ⟨E, rfl⟩⟩
    have : F = E := by
      simp only [runKeys, Option.some.injEq] at hF
      exact hF.symm
    subst this
    exact ⟨⟨rfl, rfl, rfl⟩, hin, hoff.1, hoff.2, hco⟩
  | cons c cs ih =>
    obtain ⟨a1, a2, a3, a4, a5, a6⟩ := mainCycle_invariant E c hrows hcols hin hoff hco
    have ih' := ih (dispatchKey (editorScroll E) c) (by rw [a1]; exact hrows)
      (by rw [a2]; exact hcols) a4 a5 a6
    by_cases hq : c = CTRL_KEY 113
    · refine ⟨fun F hF => ?_, fun hk => absurd hq (hk c (List.mem_cons_self _ _))⟩
      simp [runKeys, mainCycle, editorProcessKeypress, hq] at hF
    · have hrun : runKeys E (c :: cs) = runKeys (dispatchKey (editorScroll E) c) cs := by
        simp only [runKeys, mainCycle, editorProcessKeypress, if_neg hq]
      rw [hrun]
      refine ⟨fun F hF => ?_, fun hk => ih'.2 (fun x hx => hk x (List.mem_cons_of_mem _ hx))⟩
      obtain ⟨⟨b1, b2, b3⟩, b4⟩ := ih'.1 F hF
      exact ⟨⟨b1.trans a3, b2.trans a1, b3.trans a2⟩, b4⟩

/-- C27: from the initial state (`cx = cy = rx = rowoff = coloff = 0`, any
loaded buffer, `screenrows >= 1`, `screencols >= 1`), after any finite sequence
of passes of the main loop (`editorScroll`, then the dispatch of one key), the
offsets satisfy `0 <= rowoff <= numrows` and `0 <= coloff`, also right after the
next `editorScroll`; the loop gets through every sequence of keys without the
quit key. -/
theorem runKeys_offsets_in_range (E : editorConfig) (keys : List Int)
    (hstart : E.cx = 0 ∧ E.cy = 0 ∧ E.rx = 0 ∧ E.rowoff = 0 ∧ E.coloff = 0)
    (hrows : 1 ≤ E.screenrows) (hcols : 1 ≤ E.screencols) :
    (∀ F, runKeys E keys = some F →
        (0 ≤ F.rowoff ∧ F.rowoff ≤ F.numrows ∧ 0 ≤ F.coloff)
        ∧ (0 ≤ (editorScroll F).rowoff ∧ (editorScroll F).rowoff ≤ (editorScroll F).numrows
          ∧ 0 ≤ (editorScroll F).coloff)
        ∧ F.row = E.row)
    ∧ ((∀ c ∈ keys, c ≠ CTRL_KEY 113) → ∃ F, runKeys E keys = some F) := by
  obtain ⟨h1, h2, _, h4, h5⟩ := hstart
  have hn : (0 : Int) ≤ E.numrows := Int.ofNat_nonneg _
  have hin : cursorInBounds E := by
    refine ⟨by omega, by omega, by omega, ?_⟩
    rw [h1]
    exact rowLen_nonneg E
  have hinv := runKeys_invariant keys E hrows hcols hin (by omega) (by omega)
  refine ⟨fun F hF => ?_, hinv.2⟩
  obtain ⟨⟨b1, s1, s2⟩, b2, b3, b4, b5⟩ := hinv.1 F hF
  obtain ⟨c1, c2⟩ := editorScroll_offsets F (by rw [s1]; exact hrows) (by rw [s2]; exact hcols)
    ⟨b2.1, b2.2.1⟩ ⟨b3, b4⟩ b5
  exact ⟨⟨b3, b4, b5⟩, ⟨c1.1, c1.2, c2⟩, b1⟩

set_option maxRecDepth 100000 in
/-- Witness of C27: a 7 x 4 terminal (5 text rows) on a 4-line file, and seven
keys. -/
theorem runKeys_offsets_in_range_witness :
    ∃ F, runKeys (editorOpen (initEditor 7 4) [102]
        [[97, 98, 99, 100, 101, 102, 10], [98, 13, 10], [10], [99]])
      [ARROW_DOWN, END_KEY, PAGE_DOWN, ARROW_UP, END_KEY, ARROW_RIGHT, 120] = some F :=
  (runKeys_offsets_in_range (editorOpen (initEditor 7 4) [102]
      [[97, 98, 99, 100, 101, 102, 10], [98, 13, 10], [10], [99]])
    [ARROW_DOWN, END_KEY, PAGE_DOWN, ARROW_UP, END_KEY, ARROW_RIGHT, 120]
    (by decide) (by decide) (by decide)).2 (by decide)

end MoText
